import Mathlib

/-!
Verification of the tree-sorter-ts sort engine against its specification.

The program rewrites marked regions (object literals, array literals,
parameter lists) of TypeScript files into sorted order.  The live code path
is `ProcessFileAST` and its helpers in the `processor` package
(`internal/processor`, the AST implementation); the modular path
(`internal/parser`, `internal/config`, `internal/sorting`) is embedded where
a claim cites it.  Go byte strings are modelled as `List Nat` (byte values),
file contents included, and tree-sitter syntax trees as the inductive
`PNode` (the parser is an external collaborator; trees for concrete inputs
are transcribed by hand).  Go's `sort.Slice` is the pdqsort of the Go 1.21
standard library, embedded below as `goSortSlice`.
-/

/-! ### Go byte strings -/

/-- UTF-8 encoding of one character, as byte values. -/
def utf8Bytes (c : Char) : List Nat :=
  let n := c.toNat
  if n < 0x80 then [n]
  else if n < 0x800 then [0xC0 + n / 0x40, 0x80 + n % 0x40]
  else if n < 0x10000 then
    [0xE0 + n / 0x1000, 0x80 + n / 0x40 % 0x40, 0x80 + n % 0x40]
  else
    [0xF0 + n / 0x40000, 0x80 + n / 0x1000 % 0x40, 0x80 + n / 0x40 % 0x40,
      0x80 + n % 0x40]

/-- A Lean string literal as a Go byte string. -/
def strB (s : String) : List Nat :=
  s.data.foldr (fun c acc => utf8Bytes c ++ acc) []

/-- Go slice expression `content[a:b]`. -/
def gslice (content : List Nat) (a b : Nat) : List Nat :=
  (content.take b).drop a

/-- Go string comparison `a < b`: lexicographic on bytes, a proper
prefix is smaller. -/
def ltStr : List Nat → List Nat → Bool
  | [], [] => false
  | [], _ :: _ => true
  | _ :: _, [] => false
  | a :: as, b :: bs => if a < b then true else if b < a then false else ltStr as bs

/-- Go `strings.HasPrefix`. -/
def strHasPre : List Nat → List Nat → Bool
  | _, [] => true
  | [], _ :: _ => false
  | a :: as, b :: bs => a == b && strHasPre as bs

/-- Go `strings.Index`: byte index of the first occurrence of `sub`,
`-1` (encoded as `none`) when absent. -/
def strIndex (s sub : List Nat) : Option Nat :=
  (List.range (s.length + 1)).find? (fun i => strHasPre (s.drop i) sub)

/-- Go `strings.Contains`. -/
def strContains (s sub : List Nat) : Bool :=
  (strIndex s sub).isSome

/-- Byte is ASCII whitespace as recognised by `unicode.IsSpace` on the
byte range used here (space, tab, newline, carriage return, vertical tab,
form feed). -/
def isSpaceByte (b : Nat) : Bool :=
  b == 32 || b == 9 || b == 10 || b == 13 || b == 11 || b == 12

/-- Go `strings.TrimSpace` (ASCII whitespace; the inputs are ASCII). -/
def strTrimSpace (s : List Nat) : List Nat :=
  (s.dropWhile isSpaceByte).reverse.dropWhile isSpaceByte |>.reverse

/-- Go `strings.TrimPrefix`. -/
def strTrimPre (s pre : List Nat) : List Nat :=
  if strHasPre s pre then s.drop pre.length else s

/-- Go `strings.Trim(s, cutset)` for a byte cutset. -/
def strTrimCut (s : List Nat) (cut : List Nat) : List Nat :=
  (s.dropWhile (cut.contains ·)).reverse.dropWhile (cut.contains ·) |>.reverse

theorem strHasPre_length {s p : List Nat} (h : strHasPre s p = true) :
    p.length ≤ s.length := by
  induction s generalizing p with
  | nil => cases p with
    | nil => simp
    | cons b bs => simp [strHasPre] at h
  | cons a as ih => cases p with
    | nil => simp
    | cons b bs =>
      simp only [strHasPre, Bool.and_eq_true] at h
      simpa using Nat.succ_le_succ (ih h.2)

theorem strIndex_found {s sub : List Nat} {i : Nat} (h : strIndex s sub = some i) :
    strHasPre (s.drop i) sub = true := by
  have := List.find?_some h
  simpa using this

/-- Go `strings.Split` for a nonempty separator (`sep = []` behaves as
returning the string whole, a case the program never uses).  Structural
fuel: every step drops at least one byte, so `s.length + 1` always
finishes the split. -/
def strSplitF (sep : List Nat) : Nat → List Nat → List (List Nat)
  | 0, s => [s]
  | fuel + 1, s =>
    if sep.length = 0 then [s]
    else
      match strIndex s sep with
      | none => [s]
      | some i => s.take i :: strSplitF sep fuel (s.drop (i + sep.length))

def strSplit (s sep : List Nat) : List (List Nat) := strSplitF sep (s.length + 1) s

/-- Go `strings.Fields`: whitespace-separated words (fuelled on the
length, which shrinks every step). -/
def strFieldsF : Nat → List Nat → List (List Nat)
  | 0, _ => []
  | _ + 1, [] => []
  | fuel + 1, b :: rest =>
    if isSpaceByte b then strFieldsF fuel rest
    else
      (b :: rest).takeWhile (fun x => !isSpaceByte x) ::
        strFieldsF fuel ((b :: rest).dropWhile (fun x => !isSpaceByte x))

def strFields (s : List Nat) : List (List Nat) := strFieldsF s.length s

/-- Go `strings.Join` with a one-space separator. -/
def strJoinSpace (l : List (List Nat)) : List Nat :=
  List.intercalate (strB " ") l

/-! ### Numeric parsing (`fmt.Sscanf`)

`compareKeys` calls `fmt.Sscanf(a, "%f", &numA)`.  The scanner skips
leading spaces, grabs the maximal token of the shape
`[+-]? digits [. digits]? ([eE] [+-]? digits)?` (stopping at the first
byte that does not extend the token) and then accepts iff the token is a
valid decimal floating literal.  Trailing bytes after the token are not
an error, so `"12abc"` scans as `12`.  The value is modelled as an exact
fraction — a pair of a signed numerator and a positive power-of-ten
denominator, compared by cross multiplication; `float64` rounding,
hexadecimal floats, `Inf`/`NaN` words and digit-group underscores are
outside the model (no key in any theorem below exercises them). -/

def isDigitByte (b : Nat) : Bool := 48 ≤ b && b ≤ 57

def digitsVal (ds : List Nat) : Nat :=
  ds.foldl (fun acc d => acc * 10 + (d - 48)) 0

/-- An exact numeric value `num / den` with `den` a positive power of
ten (never normalised, so every operation is kernel-computable). -/
structure GoNum where
  num : Int
  den : Nat
deriving Repr, DecidableEq, Inhabited

/-- Exact order on parsed values, by cross multiplication. -/
def goNumLt (a b : GoNum) : Bool :=
  a.num * (b.den : Int) < b.num * (a.den : Int)

/-- Scan `%f`: returns the parsed value when the scan succeeds. -/
def parseGoFloat (s0 : List Nat) : Option GoNum :=
  let s1 := s0.dropWhile isSpaceByte
  let neg := s1.head? = some 45
  let s2 := if s1.head? = some 45 ∨ s1.head? = some 43 then s1.drop 1 else s1
  let ipart := s2.takeWhile isDigitByte
  let s3 := s2.drop ipart.length
  let hasDot := s3.head? = some 46
  let fpart := if hasDot then (s3.drop 1).takeWhile isDigitByte else []
  let s4 := if hasDot then (s3.drop 1).drop fpart.length else s3
  let hasExp := (s4.head? = some 101 ∨ s4.head? = some 69) ∧
    (ipart.length + fpart.length > 0 ∨ hasDot)
  let s5 := if hasExp then s4.drop 1 else s4
  let eneg := s5.head? = some 45
  let s6 := if hasExp ∧ (s5.head? = some 45 ∨ s5.head? = some 43) then s5.drop 1 else s5
  let epart := if hasExp then s6.takeWhile isDigitByte else []
  if ipart.length + fpart.length = 0 then none
  else if hasExp ∧ epart.length = 0 then none
  else
    let mag : GoNum :=
      ⟨(digitsVal ipart * 10 ^ fpart.length + digitsVal fpart : Int), 10 ^ fpart.length⟩
    let withExp : GoNum :=
      if hasExp then
        if eneg then ⟨mag.num, mag.den * 10 ^ digitsVal epart⟩
        else ⟨mag.num * (10 ^ digitsVal epart : Int), mag.den⟩
      else mag
    some (if neg then ⟨-withExp.num, withExp.den⟩ else withExp)

/-- `compareKeys` (internal/processor, also internal/sorting/common):
numbers first, then booleans (`false < true`), else ordinal bytes. -/
def compareKeys (a b : List Nat) : Bool :=
  match parseGoFloat a, parseGoFloat b with
  | some numA, some numB => goNumLt numA numB
  | _, _ =>
    if (a = strB "true" ∨ a = strB "false") ∧ (b = strB "true" ∨ b = strB "false") then
      decide (a = strB "false" ∧ b = strB "true")
    else
      ltStr a b

/-- The missing-key sentinel `"￿"` (U+FFFF as UTF-8 bytes). -/
def sentinelB : List Nat := [0xEF, 0xBF, 0xBF]

/-! ### Marker-comment configuration -/

/-- `SortConfig` of the live AST path (internal/processor). -/
structure SortConfig where
  withNewLine : Bool := false
  deprecatedAtEnd : Bool := false
  key : List Nat := []
deriving Repr, DecidableEq, Inhabited

/-- One step of the option loop in `parseSortConfig`.  The
`opt == "key="` arm of the Go code sits behind `else if
strings.HasPrefix(opt, "key=")` and is therefore unreachable; the
embedding keeps the same if/else chain. -/
def applyOpt (cfg : SortConfig) (opt : List Nat) : SortConfig :=
  if opt = strB "with-new-line" then { cfg with withNewLine := true }
  else if opt = strB "deprecated-at-end" then { cfg with deprecatedAtEnd := true }
  else if strHasPre opt (strB "key=") then
    { cfg with key := strTrimCut (opt.drop 4) [34, 39] }
  else cfg

/-- Shared comment-text cleanup of `parseSortConfig`: the part after
`keep-sorted`, truncated at `*/` (only when its index is positive),
per-line trimmed of spaces and a leading `*`, blank lines dropped,
joined with single spaces. -/
def configWords (text : List Nat) : List (List Nat) :=
  if strContains text (strB "tree-sorter-ts:") ∧ strContains text (strB "keep-sorted") then
    let parts := strSplit text (strB "keep-sorted")
    if parts.length > 1 then
      let configPart := parts.getD 1 []
      let configPart :=
        match strIndex configPart (strB "*/") with
        | some endIdx => if endIdx > 0 then configPart.take endIdx else configPart
        | none => configPart
      let lines := strSplit configPart (strB "\n")
      let cleaned := (lines.map fun line =>
        strTrimSpace (strTrimPre (strTrimSpace line) (strB "*"))).filter (· ≠ [])
      strFields (strJoinSpace cleaned)
    else []
  else []

/-- `parseSortConfig` (internal/processor AST path). -/
def parseSortConfig (commentText : List Nat) : SortConfig :=
  (configWords commentText).foldl applyOpt {}

/-- `config.SortConfig` of the modular path (internal/config). -/
structure SortConfigM where
  withNewLine : Bool := false
  deprecatedAtEnd : Bool := false
  key : List Nat := []
  sortByComment : Bool := false
  hasError : Bool := false
deriving Repr, DecidableEq, Inhabited

def applyOptM (cfg : SortConfigM) (opt : List Nat) : SortConfigM :=
  if opt = strB "with-new-line" then { cfg with withNewLine := true }
  else if opt = strB "deprecated-at-end" then { cfg with deprecatedAtEnd := true }
  else if opt = strB "sort-by-comment" then { cfg with sortByComment := true }
  else if strHasPre opt (strB "key=") then
    { cfg with key := strTrimCut (opt.drop 4) [34, 39] }
  else cfg

/-- `config.ParseSortConfig` (internal/config/sort_config.go). -/
def configParseSortConfig (commentText : List Nat) : SortConfigM :=
  (configWords commentText).foldl applyOptM {}

/-- `SortConfig.Validate` (internal/config/sort_config.go): an error and
`HasError` when `key` and `sort-by-comment` are combined.  The returned
Go `error` is modelled as the `Bool` of the pair. -/
def validateConfig (c : SortConfigM) : SortConfigM × Bool :=
  if c.key ≠ [] ∧ c.sortByComment then ({ c with hasError := true }, true)
  else (c, false)

/-! ### The marker regex

`magicCommentRegex = (?s)/\*\*?.*?tree-sorter-ts:\s*keep-sorted\b.*?\*/`
(internal/parser/magic_comments.go:14).  The processor package's own
regex declaration file is not part of the source tree; the live tests
and this declaration agree on the pattern, which is used for every
matcher below.  `Match` is existence of a decomposition: `/*` somewhere,
later `tree-sorter-ts:`, regex whitespace, `keep-sorted`, a word
boundary, and a closing `*/` somewhere after; the optional second `*`
and the non-greedy gaps are absorbed by the existential gaps. -/

def isRegexSpace (b : Nat) : Bool := b == 32 || b == 9 || b == 10 || b == 13 || b == 12

def isWordByte (b : Nat) : Bool :=
  (48 ≤ b && b ≤ 57) || (65 ≤ b && b ≤ 90) || (97 ≤ b && b ≤ 122) || b == 95

def magicMatch (s : List Nat) : Bool :=
  (List.range (s.length + 1)).any fun i =>
    strHasPre (s.drop i) (strB "/*") &&
    ((List.range (s.length + 1)).any fun j =>
      decide (i + 2 ≤ j) &&
      strHasPre (s.drop j) (strB "tree-sorter-ts:") &&
      (let k := j + 15 + ((s.drop (j + 15)).takeWhile isRegexSpace).length
       strHasPre (s.drop k) (strB "keep-sorted") &&
       (match (s.drop (k + 11)).head? with
        | none => true
        | some b => !isWordByte b) &&
       ((List.range (s.length + 1)).any fun m =>
         decide (k + 11 ≤ m) && strHasPre (s.drop m) (strB "*/"))))

/-! ### Syntax trees

Tree-sitter is an external collaborator: the embedding consumes trees of
typed nodes with byte spans, row spans, named fields and children.
`nid` stands in for the node's pointer identity (`*sitter.Node`
equality); concrete trees below give every node a distinct `nid`. -/

inductive PNode where
  | mk (typ : List Nat) (sb eb sr er nid : Nat)
      (fieldKey fieldValue fieldPattern : Option PNode)
      (children : List PNode)

instance : Inhabited PNode := ⟨.mk [] 0 0 0 0 0 none none none []⟩

def PNode.typ : PNode → List Nat | .mk t _ _ _ _ _ _ _ _ _ => t
def PNode.sb : PNode → Nat | .mk _ x _ _ _ _ _ _ _ _ => x
def PNode.eb : PNode → Nat | .mk _ _ x _ _ _ _ _ _ _ => x
def PNode.sr : PNode → Nat | .mk _ _ _ x _ _ _ _ _ _ => x
def PNode.er : PNode → Nat | .mk _ _ _ _ x _ _ _ _ _ => x
def PNode.nid : PNode → Nat | .mk _ _ _ _ _ x _ _ _ _ => x
def PNode.fieldKey : PNode → Option PNode | .mk _ _ _ _ _ _ x _ _ _ => x
def PNode.fieldValue : PNode → Option PNode | .mk _ _ _ _ _ _ _ x _ _ => x
def PNode.fieldPattern : PNode → Option PNode | .mk _ _ _ _ _ _ _ _ x _ => x
def PNode.children : PNode → List PNode | .mk _ _ _ _ _ _ _ _ _ x => x

/-- `node.Child(i)` (the code always guards the index). -/
def PNode.child (n : PNode) (i : Nat) : PNode := n.children.getD i default

/-- The node's source text `content[n.StartByte():n.EndByte()]`. -/
def nodeText (content : List Nat) (n : PNode) : List Nat := gslice content n.sb n.eb

/-- First direct child that is a comment matching the marker regex,
with its sibling index (the scan of the three `find*AST` functions). -/
def scanMagic (content : List Nat) (n : PNode) : Option Nat :=
  (List.range n.children.length).find? fun i =>
    (n.child i).typ = strB "comment" && magicMatch (nodeText content (n.child i))

structure ObjRegion where
  object : PNode
  magicComment : PNode
  magicIndex : Nat
  sortConfig : SortConfig
deriving Inhabited

structure ArrRegion where
  array : PNode
  magicComment : PNode
  magicIndex : Nat
  sortConfig : SortConfig
deriving Inhabited

structure ConstrRegion where
  formalParams : PNode
  magicComment : PNode
  magicIndex : Nat
  sortConfig : SortConfig
deriving Inhabited

mutual
/-- Node count of a tree (an upper bound on its depth, used as
traversal fuel). -/
def PNode.tsize : PNode → Nat
  | .mk _ _ _ _ _ _ _ _ _ cs => 1 + tsizeList cs
/-- Node count of a forest. -/
def tsizeList : List PNode → Nat
  | [] => 0
  | c :: cs => PNode.tsize c + tsizeList cs
end

/-- The recursive tree traversal shared by the three `find*AST`
functions, fuelled on the node count (which strictly dominates every
child's, so the wrappers below never run out). -/
def findRegionsF (hit : PNode → List α) : Nat → PNode → List α
  | 0, _ => []
  | fuel + 1, n => hit n ++ (n.children.map fun c => findRegionsF hit fuel c).flatten

/-- The marker hit test for one node of type `tname`. -/
def regionHit (content : List Nat) (tname : String)
    (mk : PNode → PNode → Nat → SortConfig → α) (n : PNode) : List α :=
  if n.typ = strB tname then
    match scanMagic content n with
    | some i =>
      [mk n (n.child i) i (parseSortConfig (nodeText content (n.child i)))]
    | none => []
  else []

/-- `findObjectsWithMagicCommentsAST`: pre-order traversal collecting
every `object` node with a marker-comment direct child. -/
def findObjectsWithMagicCommentsAST (content : List Nat) (n : PNode) : List ObjRegion :=
  findRegionsF (regionHit content "object" fun nd mc i cfg =>
    { object := nd, magicComment := mc, magicIndex := i, sortConfig := cfg }) n.tsize n

/-- `findArraysWithMagicCommentsAST`. -/
def findArraysWithMagicCommentsAST (content : List Nat) (n : PNode) : List ArrRegion :=
  findRegionsF (regionHit content "array" fun nd mc i cfg =>
    { array := nd, magicComment := mc, magicIndex := i, sortConfig := cfg }) n.tsize n

/-- `findConstructorsWithMagicCommentsAST` (`formal_parameters` nodes). -/
def findConstructorsWithMagicCommentsAST (content : List Nat) (n : PNode) : List ConstrRegion :=
  findRegionsF (regionHit content "formal_parameters" fun nd mc i cfg =>
    { formalParams := nd, magicComment := mc, magicIndex := i, sortConfig := cfg }) n.tsize n

/-! ### Item extraction (AST path) -/

/-- `hasDeprecatedAnnotation` (under a shortened name): any node text
containing `@deprecated`. -/
def hasDeprecatedAnnot (nodes : List PNode) (content : List Nat) : Bool :=
  nodes.any fun nd => strContains (nodeText content nd) (strB "@deprecated")

/-- `extractKeyAST`: property-name text, quotes stripped for strings. -/
def extractKeyAST (keyNode : PNode) (content : List Nat) : List Nat :=
  if keyNode.typ = strB "property_identifier" then nodeText content keyNode
  else if keyNode.typ = strB "string" then strTrimCut (nodeText content keyNode) [34, 39, 96]
  else if keyNode.typ = strB "computed_property_name" then nodeText content keyNode
  else nodeText content keyNode

structure AstProperty where
  keyNode : Option PNode := none
  valueNode : Option PNode := none
  pairNode : PNode := default
  key : List Nat := []
  beforeNodes : List PNode := []
  afterNode : Option PNode := none
  hasComma : Bool := false
  commaNode : Option PNode := none
  isDeprecated : Bool := false
deriving Inhabited

structure ArrayElement where
  node : PNode := default
  beforeNodes : List PNode := []
  afterNode : Option PNode := none
  hasComma : Bool := false
  commaNode : Option PNode := none
  sortKey : List Nat := []
  isDeprecated : Bool := false
deriving Inhabited

structure ConstrParam where
  node : PNode := default
  name : List Nat := []
  beforeNodes : List PNode := []
  afterNode : Option PNode := none
  hasComma : Bool := false
  commaNode : Option PNode := none
  isDeprecated : Bool := false
deriving Inhabited

/-- The comma/inline-comment look-ahead shared by the object and array
extractors: consume commas and same-line comments (same line = comment's
start row equals the primary node's end row), stop otherwise.  Returns
the final loop index and the attached pieces.  Fuel bounds the loop,
which advances `j` every step; callers pass the child count. -/
def lookAheadElemF (parent child : PNode) : Nat → Nat → Bool →
    Option PNode → Option PNode → Nat × Bool × Option PNode × Option PNode
  | 0, j, hc, cn, an => (j, hc, cn, an)
  | fuel + 1, j, hc, cn, an =>
    if j < parent.children.length then
      if (parent.child j).typ = strB "," then
        lookAheadElemF parent child fuel (j + 1) true (some (parent.child j)) an
      else if (parent.child j).typ = strB "comment" then
        if (parent.child j).sr = child.er then
          lookAheadElemF parent child fuel (j + 1) hc cn (some (parent.child j))
        else (j, hc, cn, an)
      else (j, hc, cn, an)
    else (j, hc, cn, an)

def lookAheadElem (parent child : PNode) (j : Nat) (hc : Bool)
    (cn an : Option PNode) : Nat × Bool × Option PNode × Option PNode :=
  lookAheadElemF parent child (parent.children.length + 1) j hc cn an

/-- The constructor look-ahead additionally tracks the last consumed
node (`lastNode`) and compares rows against it. -/
def lookAheadParamF (parent : PNode) : Nat → PNode → Nat → Bool →
    Option PNode → Option PNode → Nat × Bool × Option PNode × Option PNode
  | 0, _, j, hc, cn, an => (j, hc, cn, an)
  | fuel + 1, lastNode, j, hc, cn, an =>
    if j < parent.children.length then
      if (parent.child j).typ = strB "," then
        lookAheadParamF parent fuel (parent.child j) (j + 1) true (some (parent.child j)) an
      else if (parent.child j).typ = strB "comment" then
        if (parent.child j).sr = lastNode.er then
          lookAheadParamF parent fuel lastNode (j + 1) hc cn (some (parent.child j))
        else (j, hc, cn, an)
      else (j, hc, cn, an)
    else (j, hc, cn, an)

def lookAheadParam (parent : PNode) (lastNode : PNode) (j : Nat) (hc : Bool)
    (cn an : Option PNode) : Nat × Bool × Option PNode × Option PNode :=
  lookAheadParamF parent (parent.children.length + 1) lastNode j hc cn an



/-- Builds the `astProperty` for a `pair` child at index `i` of the
object (key/value fields, buffered leading comments, look-ahead comma
and inline comment, `@deprecated` detection). -/
def mkAstProperty (obj : PNode) (content : List Nat) (child : PNode)
    (pend : List PNode) (i : Nat) : AstProperty :=
  let la := lookAheadElem obj child (i + 1) false none none
  let afterNode := la.2.2.2
  let dep0 := hasDeprecatedAnnot pend content
  let dep :=
    if dep0 then dep0
    else
      match afterNode with
      | some an => strContains (nodeText content an) (strB "@deprecated")
      | none => false
  { pairNode := child, beforeNodes := pend,
    keyNode := child.fieldKey, valueNode := child.fieldValue,
    key := match child.fieldKey with
      | some kn => extractKeyAST kn content
      | none => [],
    hasComma := la.2.1, commaNode := la.2.2.1, afterNode := afterNode,
    isDeprecated := dep }

/-- `extractPropertiesAST` main loop (`i = j - 1` followed by `i++`
resumes at the look-ahead's final index; a Go `break` inside `switch`
only leaves the switch, so the `}` arm merely skips).  `i` advances
every round, so child-count fuel always completes the loop. -/
def extractPropsLoop (obj : PNode) (content : List Nat) :
    Nat → Nat → List PNode → List AstProperty → List AstProperty
  | 0, _, _, acc => acc
  | fuel + 1, i, pend, acc =>
    if i < obj.children.length then
      if (obj.child i).typ = strB "comment" then
        extractPropsLoop obj content fuel (i + 1) (pend ++ [obj.child i]) acc
      else if (obj.child i).typ = strB "pair" then
        extractPropsLoop obj content fuel
          (lookAheadElem obj (obj.child i) (i + 1) false none none).1 []
          (acc ++ [mkAstProperty obj content (obj.child i) pend i])
      else
        extractPropsLoop obj content fuel (i + 1) pend acc
    else acc

def extractPropertiesAST (obj : ObjRegion) (content : List Nat) : List AstProperty :=
  extractPropsLoop obj.object content (obj.object.children.length + 1)
    (obj.magicIndex + 1) [] []

/-- Builds the `arrayElement` for an element child at index `i`. -/
def mkArrayElement (arr : PNode) (content : List Nat) (child : PNode)
    (pend : List PNode) (i : Nat) : ArrayElement :=
  let la := lookAheadElem arr child (i + 1) false none none
  let afterNode := la.2.2.2
  let dep0 := hasDeprecatedAnnot pend content
  let dep :=
    if dep0 then dep0
    else
      match afterNode with
      | some an => strContains (nodeText content an) (strB "@deprecated")
      | none => false
  { node := child, beforeNodes := pend,
    hasComma := la.2.1, commaNode := la.2.2.1, afterNode := afterNode,
    isDeprecated := dep }

/-- `extractArrayElementsAST` main loop: comments buffer, commas skip,
any other child is an element. -/
def extractElemsLoop (arr : PNode) (content : List Nat) :
    Nat → Nat → List PNode → List ArrayElement → List ArrayElement
  | 0, _, _, acc => acc
  | fuel + 1, i, pend, acc =>
    if i < arr.children.length then
      if (arr.child i).typ = strB "comment" then
        extractElemsLoop arr content fuel (i + 1) (pend ++ [arr.child i]) acc
      else if (arr.child i).typ = strB "," then
        extractElemsLoop arr content fuel (i + 1) pend acc
      else if (arr.child i).typ = strB "]" then
        extractElemsLoop arr content fuel (i + 1) pend acc
      else
        extractElemsLoop arr content fuel
          (lookAheadElem arr (arr.child i) (i + 1) false none none).1 []
          (acc ++ [mkArrayElement arr content (arr.child i) pend i])
    else acc

def extractArrayElementsAST (arr : ArrRegion) (content : List Nat) : List ArrayElement :=
  extractElemsLoop arr.array content (arr.array.children.length + 1)
    (arr.magicIndex + 1) [] []

/-- Parameter name from the `pattern` field (`extractConstructorParamsAST`). -/
def paramName (child : PNode) (content : List Nat) : List Nat :=
  match child.fieldPattern with
  | none => []
  | some pat =>
    if pat.typ = strB "identifier" then nodeText content pat
    else if pat.typ = strB "object_pattern" then
      match pat.children.find? (fun pc =>
          pc.typ = strB "shorthand_property_identifier_pattern") with
      | some pc => nodeText content pc
      | none => []
    else nodeText content pat

def mkConstrParam (constr : PNode) (content : List Nat) (child : PNode)
    (pend : List PNode) (i : Nat) : ConstrParam :=
  let la := lookAheadParam constr child (i + 1) false none none
  let afterNode := la.2.2.2
  let dep0 := hasDeprecatedAnnot pend content
  let dep :=
    if dep0 then dep0
    else
      match afterNode with
      | some an => strContains (nodeText content an) (strB "@deprecated")
      | none => false
  { node := child, name := paramName child content, beforeNodes := pend,
    hasComma := la.2.1, commaNode := la.2.2.1, afterNode := afterNode,
    isDeprecated := dep }

/-- `extractConstructorParamsAST` main loop. -/
def extractParamsLoop (constr : PNode) (content : List Nat) :
    Nat → Nat → List PNode → List ConstrParam → List ConstrParam
  | 0, _, _, acc => acc
  | fuel + 1, i, pend, acc =>
    if i < constr.children.length then
      if (constr.child i).typ = strB "comment" then
        extractParamsLoop constr content fuel (i + 1) (pend ++ [constr.child i]) acc
      else if (constr.child i).typ = strB "required_parameter" ∨
          (constr.child i).typ = strB "optional_parameter" then
        extractParamsLoop constr content fuel
          (lookAheadParam constr (constr.child i) (i + 1) false none none).1 []
          (acc ++ [mkConstrParam constr content (constr.child i) pend i])
      else
        extractParamsLoop constr content fuel (i + 1) pend acc
    else acc

def extractConstructorParamsAST (constr : ConstrRegion) (content : List Nat) :
    List ConstrParam :=
  extractParamsLoop constr.formalParams content
    (constr.formalParams.children.length + 1) (constr.magicIndex + 1) [] []

/-! ### Array element keys (`extractElementKey` and helpers) -/

/-- `extractValueAsString`: strings lose their quotes, `null` prints as
`null`, everything else is raw source text. -/
def extractValueAsString (node : PNode) (content : List Nat) : List Nat :=
  if node.typ = strB "string" then strTrimCut (nodeText content node) [34, 39, 96]
  else if node.typ = strB "number" then nodeText content node
  else if node.typ = strB "true" ∨ node.typ = strB "false" then nodeText content node
  else if node.typ = strB "null" then strB "null"
  else nodeText content node

/-- The per-segment walk of `extractObjectProperty`.  `totalKeys` is the
fixed `len(keys)` of the Go code (not the remaining count), so the
final segment of a dotted path still descends when its value is an
object, and the walk then falls off the list and fails. -/
def extractObjPropLoop (content : List Nat) (totalKeys : Nat) :
    List (List Nat) → PNode → Option (List Nat)
  | [], _ => none
  | key :: rest, currentNode =>
    match currentNode.children.find? (fun ch =>
        ch.typ = strB "pair" &&
        (match ch.fieldKey with
         | some kn => extractKeyAST kn content == key
         | none => false) &&
        ch.fieldValue.isSome) with
    | some ch =>
      match ch.fieldValue with
      | some v =>
        if totalKeys > 1 ∧ v.typ = strB "object" then
          extractObjPropLoop content totalKeys rest v
        else some (extractValueAsString v content)
      | none => none
    | none => none

/-- `extractObjectProperty`: dotted-path lookup, `none` models the
`key not found` error. -/
def extractObjectProperty (objNode : PNode) (keyPath : List Nat)
    (content : List Nat) : Option (List Nat) :=
  extractObjPropLoop content (strSplit keyPath (strB ".")).length
    (strSplit keyPath (strB ".")) objNode

/-- `fmt.Sscanf(s, "%d", ...)`: optional sign then a nonempty digit
prefix. -/
def parseGoInt (s0 : List Nat) : Option Int :=
  let s1 := s0.dropWhile isSpaceByte
  let neg := s1.head? = some 45
  let s2 := if s1.head? = some 45 ∨ s1.head? = some 43 then s1.drop 1 else s1
  let ds := s2.takeWhile isDigitByte
  if ds.length = 0 then none
  else some (if neg then -(digitsVal ds : Int) else (digitsVal ds : Int))

/-- `extractArrayIndex`: the N-th positional element, skipping commas,
comments and the brackets; out of bounds (or an unparsable index) is the
error case. -/
def extractArrayIndex (arrNode : PNode) (indexStr : List Nat)
    (content : List Nat) : Option (List Nat) :=
  match parseGoInt indexStr with
  | none => none
  | some index =>
    if index < 0 then none
    else
      match (arrNode.children.filter fun ch =>
          ch.typ ≠ strB "," ∧ ch.typ ≠ strB "comment" ∧
          ch.typ ≠ strB "[" ∧ ch.typ ≠ strB "]").get? index.toNat with
      | some ch => some (extractValueAsString ch content)
      | none => none

/-- `extractElementKey`: no key means raw element text; objects go by
property path, arrays by index, scalars by their own value. -/
def extractElementKey (elem : ArrayElement) (keyPath : List Nat)
    (content : List Nat) : Option (List Nat) :=
  if keyPath = [] then some (nodeText content elem.node)
  else if elem.node.typ = strB "object" then
    extractObjectProperty elem.node keyPath content
  else if elem.node.typ = strB "array" then
    extractArrayIndex elem.node keyPath content
  else some (extractValueAsString elem.node content)

/-! ### `sort.Slice` — the pdqsort of the Go 1.21 standard library

`sort.Slice(x, less)` runs `pdqsort_func(lessSwap{less, swap}, 0, n,
bits.Len(uint(n)))`.  The embedding below follows `sort/zsortfunc.go`:
data is a `List`, reads are `aget`, `data.Swap` is `aswap` (the code
only ever swaps in bounds; out of bounds the model is the identity),
and `data.Less(i, j)` applies the comparator to the current elements at
`i` and `j`.  The main loop takes fuel; every iteration and recursive
call strictly shrinks `b - a`, so the supplied fuel `n + 16` is never
exhausted on the calls the program makes. -/

def aget [Inhabited α] (l : List α) (i : Nat) : α := l.getD i default

def aswap [Inhabited α] (l : List α) (i j : Nat) : List α :=
  if i < l.length ∧ j < l.length then (l.set i (aget l j)).set j (aget l i) else l

def aless [Inhabited α] (cmp : α → α → Bool) (l : List α) (i j : Nat) : Bool :=
  cmp (aget l i) (aget l j)

/-- `insertionSort_func` inner loop: bubble the element at `j` down
while it is strictly less than its left neighbour. -/
def bubbleLoop [Inhabited α] (cmp : α → α → Bool) (l : List α) (a : Nat) : Nat → List α
  | 0 => l
  | j + 1 =>
    if a < j + 1 ∧ aless cmp l (j + 1) j then bubbleLoop cmp (aswap l (j + 1) j) a j
    else l

def insertionLoop [Inhabited α] (cmp : α → α → Bool) (a b : Nat) :
    Nat → List α → Nat → List α
  | 0, l, _ => l
  | fuel + 1, l, i =>
    if i < b then insertionLoop cmp a b fuel (bubbleLoop cmp l a i) (i + 1) else l

/-- `insertionSort_func(data, a, b)`. -/
def insertionSortArr [Inhabited α] (cmp : α → α → Bool) (l : List α) (a b : Nat) : List α :=
  insertionLoop cmp a b b l (a + 1)

/-- `siftDown_func(data, root, hi, first)` (fuel: the root at least
doubles every step, so `hi` rounds always finish). -/
def siftDownF [Inhabited α] (cmp : α → α → Bool) (hi first : Nat) :
    Nat → List α → Nat → List α
  | 0, l, _ => l
  | fuel + 1, l, root =>
    if 2 * root + 1 < hi then
      let child :=
        if 2 * root + 1 + 1 < hi ∧
            aless cmp l (first + (2 * root + 1)) (first + (2 * root + 1) + 1) then
          2 * root + 1 + 1
        else 2 * root + 1
      if ¬ aless cmp l (first + root) (first + child) then l
      else siftDownF cmp hi first fuel (aswap l (first + root) (first + child)) child
    else l

def siftDownArr [Inhabited α] (cmp : α → α → Bool) (l : List α)
    (root hi first : Nat) : List α :=
  siftDownF cmp hi first hi l root

def heapBuild [Inhabited α] (cmp : α → α → Bool) (hi first : Nat) :
    List α → Nat → List α
  | l, 0 => siftDownArr cmp l 0 hi first
  | l, i + 1 => heapBuild cmp hi first (siftDownArr cmp l (i + 1) hi first) i

def heapPop [Inhabited α] (cmp : α → α → Bool) (first : Nat) :
    List α → Nat → List α
  | l, 0 => siftDownArr cmp (aswap l first (first + 0)) 0 0 first
  | l, i + 1 =>
    heapPop cmp first (siftDownArr cmp (aswap l first (first + (i + 1))) 0 (i + 1) first) i

/-- `heapSort_func(data, a, b)`. -/
def heapSortArr [Inhabited α] (cmp : α → α → Bool) (l : List α) (a b : Nat) : List α :=
  if b - a = 0 then l
  else heapPop cmp a (heapBuild cmp (b - a) a l ((b - a - 1) / 2)) (b - a - 1)

/-- `reverseRange_func(data, a, b)` (fuelled on the gap). -/
def reverseRangeF [Inhabited α] : Nat → List α → Nat → Nat → List α
  | 0, l, _, _ => l
  | fuel + 1, l, i, j =>
    if i < j then reverseRangeF fuel (aswap l i j) (i + 1) (j - 1) else l

def reverseRangeArr [Inhabited α] (l : List α) (i j : Nat) : List α :=
  reverseRangeF (j + 1) l i j

/-- The xorshift generator of `sort`: state update then read. -/
def xorshiftNext (r : Nat) : Nat :=
  let r1 := r ^^^ ((r <<< 13) % 2 ^ 64)
  let r2 := r1 ^^^ (r1 >>> 17)
  r2 ^^^ ((r2 <<< 7) % 2 ^ 64)

def bitsLenF : Nat → Nat → Nat
  | 0, _ => 0
  | fuel + 1, n => if n = 0 then 0 else bitsLenF fuel (n / 2) + 1

/-- `bits.Len`. -/
def bitsLen (n : Nat) : Nat := bitsLenF n n

/-- `breakPatterns_func(data, a, b)`: three pseudo-random swaps around
the middle, seeded with the length. -/
def breakPatternsArr [Inhabited α] (l : List α) (a b : Nat) : List α :=
  let length := b - a
  if length ≥ 8 then
    let modulus := 2 ^ bitsLen length
    let idx := a + length / 4 * 2 - 1
    let step := fun (st : List α × Nat) (i : Nat) =>
      let r := xorshiftNext st.2
      let other := r % modulus
      let other := if other ≥ length then other - length else other
      (aswap st.1 (idx - 1 + i) (a + other), r)
    (((step (l, length) 0 |> fun st => step st 1) |> fun st => step st 2)).1
  else l

inductive SHint where
  | unknown | increasing | decreasing
deriving DecidableEq, Repr, Inhabited

/-- `order2_func`: order two indices by the elements they point at,
counting a swap. -/
def order2Arr [Inhabited α] (cmp : α → α → Bool) (l : List α) (a b swaps : Nat) :
    Nat × Nat × Nat :=
  if aless cmp l b a then (b, a, swaps + 1) else (a, b, swaps)

/-- `median_func`: index of the median of three, threading the swap
counter. -/
def medianArr [Inhabited α] (cmp : α → α → Bool) (l : List α) (a b c swaps : Nat) :
    Nat × Nat :=
  let r1 := order2Arr cmp l a b swaps
  let r2 := order2Arr cmp l r1.2.1 c r1.2.2
  let r3 := order2Arr cmp l r1.1 r2.1 r2.2.2
  (r3.2.1, r3.2.2)

/-- `medianAdjacent_func`: median of `{a-1, a, a+1}`. -/
def medianAdjacentArr [Inhabited α] (cmp : α → α → Bool) (l : List α) (a swaps : Nat) :
    Nat × Nat :=
  medianArr cmp l (a - 1) a (a + 1) swaps

def hintOfSwaps (swaps : Nat) : SHint :=
  if swaps = 0 then .increasing
  else if swaps = 12 then .decreasing
  else .unknown

/-- `choosePivot_func(data, a, b)`: median of three at `l/4` spacing,
Tukey ninther from 50 elements up, sampled order as the hint. -/
def choosePivotArr [Inhabited α] (cmp : α → α → Bool) (l : List α) (a b : Nat) :
    Nat × SHint :=
  let length := b - a
  let i := a + length / 4 * 1
  let j := a + length / 4 * 2
  let k := a + length / 4 * 3
  if length ≥ 8 then
    if length ≥ 50 then
      let m1 := medianAdjacentArr cmp l i 0
      let m2 := medianAdjacentArr cmp l j m1.2
      let m3 := medianAdjacentArr cmp l k m2.2
      let m4 := medianArr cmp l m1.1 m2.1 m3.1 m3.2
      (m4.1, hintOfSwaps m4.2)
    else
      let m4 := medianArr cmp l i j k 0
      (m4.1, hintOfSwaps m4.2)
  else (j, hintOfSwaps 0)

/-- Upward scan `for i <= j && p(i) { i++ }` (fuelled on the gap). -/
def scanUpF (p : Nat → Bool) : Nat → Nat → Nat → Nat
  | 0, i, _ => i
  | fuel + 1, i, j => if i ≤ j ∧ p i then scanUpF p fuel (i + 1) j else i

def scanUp (p : Nat → Bool) (i j : Nat) : Nat := scanUpF p (j + 2 - i) i j

/-- Downward scan `for i <= j && p(j) { j-- }` (structural on `j`; the
callers keep `i ≥ 1`, so `j` never goes negative in Go either). -/
def scanDown (p : Nat → Bool) (i : Nat) : Nat → Nat
  | 0 => 0
  | j + 1 => if i ≤ j + 1 ∧ p (j + 1) then scanDown p i j else j + 1


/-- The symmetric swap loop of `partition_func` (and the final state of
its indices), fuelled on the gap, which shrinks every round. -/
def partitionLoopF [Inhabited α] (cmp : α → α → Bool) (a : Nat) :
    Nat → List α → Nat → Nat → List α × Nat × Nat
  | 0, l, i, j => (l, i, j)
  | fuel + 1, l, i, j =>
    let i' := scanUp (fun x => aless cmp l x a) i j
    let j' := scanDown (fun x => ¬ aless cmp l x a) i' j
    if i' > j' then (l, i', j')
    else partitionLoopF cmp a fuel (aswap l i' j') (i' + 1) (j' - 1)

def partitionLoopArr [Inhabited α] (cmp : α → α → Bool) (l : List α)
    (a i j : Nat) : List α × Nat × Nat :=
  partitionLoopF cmp a (j + 2 - i) l i j

/-- `partition_func(data, a, b, pivot)`: pivot to the front, symmetric
scans, returns the data, the pivot's final slot and the
already-partitioned flag. -/
def partitionArr [Inhabited α] (cmp : α → α → Bool) (l : List α)
    (a b pivot : Nat) : List α × Nat × Bool :=
  let l0 := aswap l a pivot
  let i := scanUp (fun x => aless cmp l0 x a) (a + 1) (b - 1)
  let j := scanDown (fun x => ¬ aless cmp l0 x a) i (b - 1)
  if i > j then (aswap l0 j a, j, true)
  else
    let res := partitionLoopArr cmp (aswap l0 i j) a (i + 1) (j - 1)
    (aswap res.1 res.2.2 a, res.2.2, false)

/-- The swap loop of `partitionEqual_func`. -/
def partitionEqualLoopF [Inhabited α] (cmp : α → α → Bool) (a : Nat) :
    Nat → List α → Nat → Nat → List α × Nat
  | 0, l, i, _ => (l, i)
  | fuel + 1, l, i, j =>
    let i' := scanUp (fun x => ¬ aless cmp l a x) i j
    let j' := scanDown (fun x => aless cmp l a x) i' j
    if i' > j' then (l, i')
    else partitionEqualLoopF cmp a fuel (aswap l i' j') (i' + 1) (j' - 1)

def partitionEqualLoopArr [Inhabited α] (cmp : α → α → Bool) (l : List α)
    (a i j : Nat) : List α × Nat :=
  partitionEqualLoopF cmp a (j + 2 - i) l i j

/-- `partitionEqual_func(data, a, b, pivot)`: moves elements equal to
the pivot to the front, returns the first index past them. -/
def partitionEqualArr [Inhabited α] (cmp : α → α → Bool) (l : List α)
    (a b pivot : Nat) : List α × Nat :=
  let l0 := aswap l a pivot
  partitionEqualLoopArr cmp l0 a (a + 1) (b - 1)

/-- The adjacent-inversion scan of `partialInsertionSort_func`. -/
def pisScanF [Inhabited α] (cmp : α → α → Bool) (l : List α) (b : Nat) :
    Nat → Nat → Nat
  | 0, i => i
  | fuel + 1, i =>
    if i < b ∧ ¬ aless cmp l i (i - 1) then pisScanF cmp l b fuel (i + 1) else i

def pisScan [Inhabited α] (cmp : α → α → Bool) (l : List α) (i b : Nat) : Nat :=
  pisScanF cmp l b (b + 1 - i) i

/-- Shift the smaller element leftwards (`for j := i-1; j >= 1; j--`). -/
def pisShiftLeft [Inhabited α] (cmp : α → α → Bool) : List α → Nat → List α
  | l, 0 => l
  | l, j + 1 =>
    if aless cmp l (j + 1) j then pisShiftLeft cmp (aswap l (j + 1) j) j else l

/-- Shift the greater element rightwards (`for j := i+1; j < b; j++`). -/
def pisShiftRightF [Inhabited α] (cmp : α → α → Bool) (b : Nat) :
    Nat → List α → Nat → List α
  | 0, l, _ => l
  | fuel + 1, l, j =>
    if j < b ∧ aless cmp l j (j - 1) then
      pisShiftRightF cmp b fuel (aswap l j (j - 1)) (j + 1)
    else l

def pisShiftRight [Inhabited α] (cmp : α → α → Bool) (l : List α) (j b : Nat) : List α :=
  pisShiftRightF cmp b (b + 1 - j) l j

def pisLoop [Inhabited α] (cmp : α → α → Bool) (a b : Nat) :
    Nat → List α → Nat → List α × Bool
  | 0, l, _ => (l, false)
  | steps + 1, l, i =>
    let i' := pisScan cmp l i b
    if i' = b then (l, true)
    else if b - a < 50 then (l, false)
    else
      let l1 := aswap l i' (i' - 1)
      let l2 := if i' - a ≥ 2 then pisShiftLeft cmp l1 (i' - 1) else l1
      let l3 := if b - i' ≥ 2 then pisShiftRight cmp l2 (i' + 1) b else l2
      pisLoop cmp a b steps l3 i'

/-- `partialInsertionSort_func(data, a, b)`: up to five adjacent
repairs, reporting whether the range ended sorted. -/
def partialInsertionSortArr [Inhabited α] (cmp : α → α → Bool) (l : List α)
    (a b : Nat) : List α × Bool :=
  pisLoop cmp a b 5 l (a + 1)

/-- `pdqsort_func(data, a, b, limit)` with explicit fuel for the outer
loop / recursion (each round strictly shrinks `b - a`, so `n + 16` fuel
is never exhausted). -/
def pdqsortArr [Inhabited α] (cmp : α → α → Bool) :
    Nat → List α → Nat → Nat → Nat → Bool → Bool → List α
  | 0, l, _, _, _, _, _ => l
  | fuel + 1, l, a, b, limit, wasBalanced, wasPartitioned =>
    let length := b - a
    if length ≤ 12 then insertionSortArr cmp l a b
    else if limit = 0 then heapSortArr cmp l a b
    else
      let l1 := if ¬ wasBalanced then breakPatternsArr l a b else l
      let limit1 := if ¬ wasBalanced then limit - 1 else limit
      let pc := choosePivotArr cmp l1 a b
      let l2 := if pc.2 = .decreasing then reverseRangeArr l1 a b else l1
      let pivot := if pc.2 = .decreasing then (b - 1) - (pc.1 - a) else pc.1
      let hint := if pc.2 = .decreasing then SHint.increasing else pc.2
      let pis :=
        if wasBalanced ∧ wasPartitioned ∧ hint = .increasing then
          partialInsertionSortArr cmp l2 a b
        else (l2, false)
      if pis.2 then pis.1
      else
        let l3 := pis.1
        if a > 0 ∧ ¬ aless cmp l3 (a - 1) pivot then
          let pe := partitionEqualArr cmp l3 a b pivot
          pdqsortArr cmp fuel pe.1 pe.2 b limit1 wasBalanced wasPartitioned
        else
          let pr := partitionArr cmp l3 a b pivot
          let mid := pr.2.1
          let wasPartitioned' := pr.2.2
          let wasBalanced' := min (mid - a) (b - mid) ≥ length / 8
          if mid - a < b - mid then
            let lrec := pdqsortArr cmp fuel pr.1 a mid limit1 true true
            pdqsortArr cmp fuel lrec (mid + 1) b limit1 wasBalanced' wasPartitioned'
          else
            let lrec := pdqsortArr cmp fuel pr.1 (mid + 1) b limit1 true true
            pdqsortArr cmp fuel lrec a mid limit1 wasBalanced' wasPartitioned'

/-- `sort.Slice(x, less)`. -/
def goSortSlice [Inhabited α] (cmp : α → α → Bool) (l : List α) : List α :=
  pdqsortArr cmp (l.length + 16) l 0 l.length (bitsLen l.length) true true

/-! ### Sorting comparators of `sortObjectAST` / `sortArrayAST` /
`sortConstructorAST` -/

/-- The object comparator: deprecated partition first when enabled,
then plain Go string order on the property key. -/
def objLess (cfg : SortConfig) (x y : AstProperty) : Bool :=
  if cfg.deprecatedAtEnd then
    if x.isDeprecated ≠ y.isDeprecated then !x.isDeprecated
    else ltStr x.key y.key
  else ltStr x.key y.key

/-- The array comparator: with `deprecated-at-end` a plain string
comparison of the sort keys (the `￿` prefix is relied on for
ordering); otherwise the explicit missing-key split and `compareKeys`
for two resolvable keys. -/
def arrLess (deprecatedAtEnd : Bool) (x y : ArrayElement) : Bool :=
  if deprecatedAtEnd then
    if x.isDeprecated ≠ y.isDeprecated then !x.isDeprecated
    else ltStr x.sortKey y.sortKey
  else
    if strHasPre x.sortKey sentinelB ≠ strHasPre y.sortKey sentinelB then
      !strHasPre x.sortKey sentinelB
    else if strHasPre x.sortKey sentinelB ∧ strHasPre y.sortKey sentinelB then
      ltStr x.sortKey y.sortKey
    else compareKeys x.sortKey y.sortKey

/-- The parameter comparator: alphabetical by name, deprecated last
when enabled. -/
def paramLess (deprecatedAtEnd : Bool) (x y : ConstrParam) : Bool :=
  if deprecatedAtEnd then
    if x.isDeprecated ≠ y.isDeprecated then !x.isDeprecated
    else ltStr x.name y.name
  else ltStr x.name y.name

/-- Sort-key assignment of `sortArrayAST`: extraction failure gets the
sentinel plus the element's own source text. -/
def assignSortKey (cfgKey : List Nat) (content : List Nat) (e : ArrayElement) :
    ArrayElement :=
  match extractElementKey e cfgKey content with
  | some k => { e with sortKey := k }
  | none => { e with sortKey := sentinelB ++ nodeText content e.node }

/-! ### Formatting checks -/

/-- `checkFormattingNeeded` (objects): newline count between adjacent
properties must be exactly 1, or 2 with `with-new-line`.  There is no
single-line special case in the object version. -/
def checkFormattingNeeded (obj : ObjRegion) (properties : List AstProperty)
    (content : List Nat) : Bool :=
  (List.range (properties.length - 1)).any fun i =>
    let prop := properties.getD i default
    let nextProp := properties.getD (i + 1) default
    let endNode :=
      match prop.afterNode with
      | some an => an
      | none =>
        match prop.commaNode with
        | some cn => cn
        | none => prop.pairNode
    let endByte :=
      match nextProp.beforeNodes.head? with
      | some b0 => b0.sb
      | none => nextProp.pairNode.sb
    let newlineCount := (gslice content endNode.eb endByte).countP (· == 10)
    let expected := if obj.sortConfig.withNewLine then 2 else 1
    decide (newlineCount ≠ expected)

/-- `checkArrayFormattingNeeded`: single-line arrays (first element's
start row equals last element's end row) never need formatting;
otherwise the same newline count check. -/
def checkArrayFormattingNeeded (arr : ArrRegion) (elements : List ArrayElement)
    (content : List Nat) : Bool :=
  if elements.length > 0 ∧
      (elements.getD 0 default).node.sr =
        (elements.getD (elements.length - 1) default).node.er then
    false
  else
    (List.range (elements.length - 1)).any fun i =>
      let elem := elements.getD i default
      let nextElem := elements.getD (i + 1) default
      let endNode :=
        match elem.afterNode with
        | some an => an
        | none =>
          match elem.commaNode with
          | some cn => cn
          | none => elem.node
      let endByte :=
        match nextElem.beforeNodes.head? with
        | some b0 => b0.sb
        | none => nextElem.node.sb
      let newlineCount := (gslice content endNode.eb endByte).countP (· == 10)
      let expected := if arr.sortConfig.withNewLine then 2 else 1
      decide (newlineCount ≠ expected)

/-- `checkConstructorFormattingNeeded`: the object pattern on
parameters (again no single-line case). -/
def checkConstructorFormattingNeeded (constr : ConstrRegion)
    (params : List ConstrParam) (content : List Nat) : Bool :=
  (List.range (params.length - 1)).any fun i =>
    let param := params.getD i default
    let nextParam := params.getD (i + 1) default
    let endNode :=
      match param.afterNode with
      | some an => an
      | none =>
        match param.commaNode with
        | some cn => cn
        | none => param.node
    let endByte :=
      match nextParam.beforeNodes.head? with
      | some b0 => b0.sb
      | none => nextParam.node.sb
    let newlineCount := (gslice content endNode.eb endByte).countP (· == 10)
    let expected := if constr.sortConfig.withNewLine then 2 else 1
    decide (newlineCount ≠ expected)

/-! ### Reconstruction -/

/-- Backward scan for the start of the line containing byte `p`. -/
def lineStartAt (content : List Nat) : Nat → Nat
  | 0 => 0
  | p + 1 => if content.getD p 0 ≠ 10 then lineStartAt content p else p + 1

/-- Common indentation: the line prefix of the first `pair` child after
the marker. -/
def objCommonIndent (obj : ObjRegion) (content : List Nat) : List Nat :=
  match (obj.object.children.drop (obj.magicIndex + 1)).find?
      (fun ch => ch.typ == strB "pair") with
  | some ch =>
    let ls := lineStartAt content ch.sb
    if ls < ch.sb then gslice content ls ch.sb else []
  | none => []

/-- Bytes from the object's opening brace through the marker comment,
original inter-node whitespace preserved. -/
def objPrefixBytes (obj : ObjRegion) (content : List Nat) : List Nat :=
  ((List.range (obj.magicIndex + 1)).map fun i =>
    let ch := obj.object.child i
    let ws :=
      if i = 0 then gslice content obj.object.sb ch.sb
      else gslice content (obj.object.child (i - 1)).eb ch.sb
    ws ++ nodeText content ch).flatten

/-- `findOriginalLastProperty`: trailing-comma presence of the last
`pair` in source order (`none` when there is no pair). -/
def findOriginalLastProperty (obj : ObjRegion) : Option Bool :=
  match ((List.range obj.object.children.length).filter fun i =>
      obj.magicIndex + 1 ≤ i ∧ (obj.object.child i).typ = strB "pair").getLast? with
  | none => none
  | some i =>
    some (i + 1 < obj.object.children.length ∧ (obj.object.child (i + 1)).typ = strB ",")

/-- `findOriginalClosingSpacing`. -/
def findOriginalClosingSpacing (obj : ObjRegion) (content : List Nat) : List Nat :=
  let lastContentEnd :=
    match ((List.range obj.object.children.length).filter fun i =>
        obj.magicIndex < i ∧ ((obj.object.child i).typ = strB "pair" ∨
          (obj.object.child i).typ = strB ",")).getLast? with
    | some i => (obj.object.child i).eb
    | none => obj.magicComment.eb
  match ((List.range obj.object.children.length).filter fun i =>
      (obj.object.child i).typ = strB "\x7d").getLast? with
  | some i => gslice content lastContentEnd (obj.object.child i).sb
  | none => strB "\n"

/-- One property of the sorted output: leading comments at their
original indentation, the common indent, the pair's source text, the
comma rule, the inline comment, then the separator newlines. -/
def renderObjProp (obj : ObjRegion) (content : List Nat)
    (sortedProps : List AstProperty) (acc : List Nat) (i : Nat) : List Nat :=
  let prop := sortedProps.getD i default
  let acc := prop.beforeNodes.foldl (fun acc cn =>
    let acc :=
      if acc.length > 0 then
        let ls := lineStartAt content cn.sb
        if ls < cn.sb then acc ++ gslice content ls cn.sb else acc
      else acc
    acc ++ nodeText content cn ++ [10]) acc
  let acc := acc ++ objCommonIndent obj content
  let acc := acc ++ nodeText content prop.pairNode
  let acc :=
    if i < sortedProps.length - 1 then
      match prop.commaNode with
      | some cn => if prop.hasComma then acc ++ nodeText content cn else acc ++ [44]
      | none => acc ++ [44]
    else
      match findOriginalLastProperty obj with
      | some lastComma => if lastComma then acc ++ [44] else acc
      | none => acc
  let acc :=
    match prop.afterNode with
    | some an => acc ++ [32] ++ nodeText content an
    | none => acc
  if i < sortedProps.length - 1 then
    acc ++ [10] ++ (if obj.sortConfig.withNewLine then [10] else [])
  else acc

/-- Closing brace plus the preserved (or defaulted) spacing before it;
the brace must not be the object's first child. -/
def objClosing (obj : ObjRegion) (content : List Nat) : List Nat :=
  match ((List.range obj.object.children.length).filter fun i =>
      (obj.object.child i).typ = strB "\x7d").getLast? with
  | some i =>
    if i > 0 then
      let sp := findOriginalClosingSpacing obj content
      (if sp.length > 0 then sp else [10]) ++ nodeText content (obj.object.child i)
    else []
  | none => []

/-- `reconstructObjectAST`. -/
def reconstructObjectAST (obj : ObjRegion) (sortedProps : List AstProperty)
    (content : List Nat) : List Nat :=
  let acc := objPrefixBytes obj content
  let acc := if obj.magicIndex + 1 < obj.object.children.length then acc ++ [10] else acc
  let acc := (List.range sortedProps.length).foldl (renderObjProp obj content sortedProps) acc
  acc ++ objClosing obj content

/-- The already-sorted check of `sortObjectAST`: position by position,
original and freshly sorted property must have the same key, and with
`deprecated-at-end` the same deprecation flag.  Node identity plays no
part here. -/
def objCheckSorted (cfg : SortConfig) (properties sorted : List AstProperty) : Bool :=
  (List.range properties.length).all fun i =>
    (properties.getD i default).key == (sorted.getD i default).key &&
    (!cfg.deprecatedAtEnd ||
      (properties.getD i default).isDeprecated == (sorted.getD i default).isDeprecated)

/-- `sortObjectAST`: extract, sort (`sort.Slice`), compare the key (and
with `deprecated-at-end` the flag) sequences for the already-sorted
check, consult the formatting check, and reconstruct when needed.
`none` models the Go `nil` result of an unchanged region. -/
def sortObjectAST (obj : ObjRegion) (content : List Nat) : Option (List Nat) × Bool :=
  let properties := extractPropertiesAST obj content
  if properties.length ≤ 1 then (none, false)
  else
    let sorted := goSortSlice (objLess obj.sortConfig) properties
    let alreadySorted := objCheckSorted obj.sortConfig properties sorted
    let needsFormatting :=
      if alreadySorted ∧ properties.length > 1 then
        checkFormattingNeeded obj properties content
      else false
    if alreadySorted ∧ ¬ needsFormatting then (none, false)
    else (some (reconstructObjectAST obj sorted content), true)

/-- Single-line detection of `reconstructArrayAST`: first and last
sorted element on one row. -/
def arrIsSingleLine (sortedElems : List ArrayElement) : Bool :=
  sortedElems.length > 0 &&
    (sortedElems.getD 0 default).node.sr ==
      (sortedElems.getD (sortedElems.length - 1) default).node.er

def arrCommonIndent (arr : ArrRegion) (content : List Nat) : List Nat :=
  match (arr.array.children.drop (arr.magicIndex + 1)).find? (fun ch =>
      ch.typ ≠ strB "," ∧ ch.typ ≠ strB "comment" ∧ ch.typ ≠ strB "]") with
  | some ch =>
    let ls := lineStartAt content ch.sb
    if ls < ch.sb then gslice content ls ch.sb else []
  | none => []

def arrPrefixBytes (arr : ArrRegion) (content : List Nat) : List Nat :=
  ((List.range (arr.magicIndex + 1)).map fun i =>
    let ch := arr.array.child i
    let ws :=
      if i = 0 then gslice content arr.array.sb ch.sb
      else gslice content (arr.array.child (i - 1)).eb ch.sb
    ws ++ nodeText content ch).flatten

/-- `findOriginalLastArrayElement` (trailing-comma presence only). -/
def findOriginalLastArrayElemComma (arr : ArrRegion) : Option Bool :=
  match ((List.range arr.array.children.length).filter fun i =>
      arr.magicIndex + 1 ≤ i ∧ (arr.array.child i).typ ≠ strB "," ∧
      (arr.array.child i).typ ≠ strB "comment" ∧
      (arr.array.child i).typ ≠ strB "]").getLast? with
  | none => none
  | some i =>
    some (i + 1 < arr.array.children.length ∧ (arr.array.child (i + 1)).typ = strB ",")

def renderArrElem (arr : ArrRegion) (content : List Nat) (singleLine : Bool)
    (sortedElems : List ArrayElement) (acc : List Nat) (i : Nat) : List Nat :=
  let elem := sortedElems.getD i default
  let acc :=
    if singleLine then
      if i = 0 then acc ++ [10] ++ arrCommonIndent arr content else acc
    else
      let acc := elem.beforeNodes.foldl (fun acc cn =>
        let acc :=
          if acc.length > 0 then
            let ls := lineStartAt content cn.sb
            if ls < cn.sb then acc ++ gslice content ls cn.sb else acc
          else acc
        acc ++ nodeText content cn ++ [10]) acc
      acc ++ arrCommonIndent arr content
  let acc := acc ++ nodeText content elem.node
  let acc :=
    if i < sortedElems.length - 1 then
      let acc :=
        match elem.commaNode with
        | some cn => if elem.hasComma then acc ++ nodeText content cn else acc ++ [44]
        | none => acc ++ [44]
      if singleLine then acc ++ [32] else acc
    else
      match findOriginalLastArrayElemComma arr with
      | some lastComma => if lastComma then acc ++ [44] else acc
      | none => acc
  let acc :=
    match elem.afterNode with
    | some an => acc ++ [32] ++ nodeText content an
    | none => acc
  if ¬ singleLine ∧ i < sortedElems.length - 1 then
    acc ++ [10] ++ (if arr.sortConfig.withNewLine then [10] else [])
  else acc

/-- `findOriginalArrayClosingSpacing` just returns a newline. -/
def findOriginalArrayClosingSpacing : List Nat := [10]

def arrClosing (arr : ArrRegion) (content : List Nat) : List Nat :=
  match ((List.range arr.array.children.length).filter fun i =>
      (arr.array.child i).typ = strB "]").getLast? with
  | some i =>
    if i > 0 then
      (if findOriginalArrayClosingSpacing.length > 0 then
        findOriginalArrayClosingSpacing else [10]) ++
        nodeText content (arr.array.child i)
    else []
  | none => []

/-- `reconstructArrayAST`. -/
def reconstructArrayAST (arr : ArrRegion) (sortedElems : List ArrayElement)
    (content : List Nat) : List Nat :=
  let singleLine := arrIsSingleLine sortedElems
  let acc := arrPrefixBytes arr content
  let acc :=
    if arr.magicIndex + 1 < arr.array.children.length ∧ ¬ singleLine then acc ++ [10]
    else acc
  let acc := (List.range sortedElems.length).foldl
    (renderArrElem arr content singleLine sortedElems) acc
  acc ++ arrClosing arr content

/-- The already-sorted check of `sortArrayAST`: position by position the
underlying syntax node must be the same (`elements[i].node !=
sorted[i].node` compares node pointers, here `nid`). -/
def arrCheckSorted (elements sorted : List ArrayElement) : Bool :=
  (List.range elements.length).all fun i =>
    (elements.getD i default).node.nid == (sorted.getD i default).node.nid

/-- `sortArrayAST`: keys are assigned first (failures get the sentinel
prefix), the already-sorted check is node identity, then formatting and
reconstruction. -/
def sortArrayAST (arr : ArrRegion) (content : List Nat) : Option (List Nat) × Bool :=
  let elements := extractArrayElementsAST arr content
  if elements.length ≤ 1 then (none, false)
  else
    let keyed := elements.map (assignSortKey arr.sortConfig.key content)
    let sorted := goSortSlice (arrLess arr.sortConfig.deprecatedAtEnd) keyed
    let alreadySorted := arrCheckSorted keyed sorted
    let needsFormatting :=
      if alreadySorted ∧ keyed.length > 1 then
        checkArrayFormattingNeeded arr keyed content
      else false
    if alreadySorted ∧ ¬ needsFormatting then (none, false)
    else (some (reconstructArrayAST arr sorted content), true)

/-! ### Constructor parameter regions -/

def constrCommonIndent (constr : ConstrRegion) (content : List Nat) : List Nat :=
  match (constr.formalParams.children.drop (constr.magicIndex + 1)).find? (fun ch =>
      ch.typ == strB "required_parameter" || ch.typ == strB "optional_parameter") with
  | some ch =>
    let ls := lineStartAt content ch.sb
    if ls < ch.sb then gslice content ls ch.sb else []
  | none => []

def constrPrefixBytes (constr : ConstrRegion) (content : List Nat) : List Nat :=
  ((List.range (constr.magicIndex + 1)).map fun i =>
    let ch := constr.formalParams.child i
    let ws :=
      if i = 0 then gslice content constr.formalParams.sb ch.sb
      else gslice content (constr.formalParams.child (i - 1)).eb ch.sb
    ws ++ nodeText content ch).flatten

/-- `findOriginalLastConstructorParam`: the node after the last
parameter decides the trailing comma (`none` when no parameter). -/
def findOriginalLastConstrParamComma (constr : ConstrRegion) : Option Bool :=
  match ((List.range constr.formalParams.children.length).filter fun i =>
      constr.magicIndex + 1 ≤ i ∧
      ((constr.formalParams.child i).typ = strB "required_parameter" ∨
        (constr.formalParams.child i).typ = strB "optional_parameter")).getLast? with
  | none => none
  | some li =>
    match ((List.range constr.formalParams.children.length).filter fun i =>
        li < i ∧ ((constr.formalParams.child i).typ = strB "," ∨
          (constr.formalParams.child i).typ = strB "required_parameter" ∨
          (constr.formalParams.child i).typ = strB "optional_parameter")).head? with
    | some i => some ((constr.formalParams.child i).typ = strB ",")
    | none => some false

def findOriginalConstrClosingSpacing (constr : ConstrRegion) (content : List Nat) :
    List Nat :=
  let lastContentEnd :=
    match ((List.range constr.formalParams.children.length).filter fun i =>
        constr.magicIndex < i ∧
        ((constr.formalParams.child i).typ = strB "required_parameter" ∨
          (constr.formalParams.child i).typ = strB "optional_parameter" ∨
          (constr.formalParams.child i).typ = strB "," ∨
          (constr.formalParams.child i).typ = strB "comment")).getLast? with
    | some i => (constr.formalParams.child i).eb
    | none => constr.magicComment.eb
  match ((List.range constr.formalParams.children.length).filter fun i =>
      (constr.formalParams.child i).typ = strB ")").getLast? with
  | some i => gslice content lastContentEnd (constr.formalParams.child i).sb
  | none => strB "\n"

def renderConstrParam (constr : ConstrRegion) (content : List Nat)
    (sortedParams : List ConstrParam) (acc : List Nat) (i : Nat) : List Nat :=
  let param := sortedParams.getD i default
  let acc := param.beforeNodes.foldl (fun acc cn =>
    let acc :=
      if acc.length > 0 then
        let ls := lineStartAt content cn.sb
        if ls < cn.sb then acc ++ gslice content ls cn.sb else acc
      else acc
    acc ++ nodeText content cn ++ [10]) acc
  let acc := acc ++ constrCommonIndent constr content
  let acc := acc ++ nodeText content param.node
  let acc :=
    if i < sortedParams.length - 1 then
      match param.commaNode with
      | some cn => if param.hasComma then acc ++ nodeText content cn else acc ++ [44]
      | none => acc ++ [44]
    else
      match findOriginalLastConstrParamComma constr with
      | some lastComma => if lastComma then acc ++ [44] else acc
      | none => acc
  let acc :=
    match param.afterNode with
    | some an => acc ++ [32] ++ nodeText content an
    | none => acc
  if i < sortedParams.length - 1 then
    acc ++ [10] ++ (if constr.sortConfig.withNewLine then [10] else [])
  else acc

def constrClosing (constr : ConstrRegion) (content : List Nat) : List Nat :=
  match ((List.range constr.formalParams.children.length).filter fun i =>
      (constr.formalParams.child i).typ = strB ")").getLast? with
  | some i =>
    if i > 0 then
      let sp := findOriginalConstrClosingSpacing constr content
      (if sp.length > 0 then sp else [10]) ++
        nodeText content (constr.formalParams.child i)
    else []
  | none => []

/-- `reconstructConstructorAST`. -/
def reconstructConstructorAST (constr : ConstrRegion)
    (sortedParams : List ConstrParam) (content : List Nat) : List Nat :=
  let acc := constrPrefixBytes constr content
  let acc :=
    if constr.magicIndex + 1 < constr.formalParams.children.length then acc ++ [10]
    else acc
  let acc := (List.range sortedParams.length).foldl
    (renderConstrParam constr content sortedParams) acc
  acc ++ constrClosing constr content

/-- The already-sorted check of `sortConstructorAST` (names, and flags
with `deprecated-at-end`). -/
def constrCheckSorted (cfg : SortConfig) (params sorted : List ConstrParam) : Bool :=
  (List.range params.length).all fun i =>
    (params.getD i default).name == (sorted.getD i default).name &&
    (!cfg.deprecatedAtEnd ||
      (params.getD i default).isDeprecated == (sorted.getD i default).isDeprecated)

/-- `sortConstructorAST`: like the object case, with parameter names as
keys and a name (plus deprecation) comparison as the already-sorted
check. -/
def sortConstructorAST (constr : ConstrRegion) (content : List Nat) :
    Option (List Nat) × Bool :=
  let params := extractConstructorParamsAST constr content
  if params.length ≤ 1 then (none, false)
  else
    let sorted := goSortSlice (paramLess constr.sortConfig.deprecatedAtEnd) params
    let alreadySorted := constrCheckSorted constr.sortConfig params sorted
    let needsFormatting :=
      if alreadySorted ∧ params.length > 1 then
        checkConstructorFormattingNeeded constr params content
      else false
    if alreadySorted ∧ ¬ needsFormatting then (none, false)
    else (some (reconstructConstructorAST constr sorted content), true)

/-! ### `ProcessFileAST` -/

structure SortableItem where
  startByte : Nat := 0
  endByte : Nat := 0
  isArray : Bool := false
  isConstructor : Bool := false
  objIndex : Nat := 0
  arrIndex : Nat := 0
  constrIndex : Nat := 0
deriving Repr, DecidableEq, Inhabited

/-- The per-item sort of `ProcessFileAST`, recomputed in both passes
against the original content. -/
def sortItemAt (objects : List ObjRegion) (arrays : List ArrRegion)
    (constrs : List ConstrRegion) (content : List Nat) (it : SortableItem) :
    Option (List Nat) × Bool :=
  if it.isArray then sortArrayAST (arrays.getD it.arrIndex default) content
  else if it.isConstructor then sortConstructorAST (constrs.getD it.constrIndex default) content
  else sortObjectAST (objects.getD it.objIndex default) content

structure ProcessResult where
  out : List Nat
  changed : Bool
  objectsFound : Nat
  objectsNeedSort : Nat
deriving Repr, DecidableEq

/-- The item list of `ProcessFileAST`, in discovery order. -/
def processItems (objects : List ObjRegion) (arrays : List ArrRegion)
    (constrs : List ConstrRegion) : List SortableItem :=
  ((List.range objects.length).map fun i =>
    { startByte := (objects.getD i default).object.sb,
      endByte := (objects.getD i default).object.eb, objIndex := i }) ++
  ((List.range arrays.length).map fun i =>
    { startByte := (arrays.getD i default).array.sb,
      endByte := (arrays.getD i default).array.eb, isArray := true,
      arrIndex := i }) ++
  ((List.range constrs.length).map fun i =>
    { startByte := (constrs.getD i default).formalParams.sb,
      endByte := (constrs.getD i default).formalParams.eb,
      isConstructor := true, constrIndex := i })

/-- `ProcessFileAST` on parsed content: early regex exit, discovery,
descending-start ordering via `sort.Slice`, a counting pass, and a
splice pass over a mutable copy (slices written with the original
region offsets; Go would panic where an offset exceeds the buffer, the
model clamps).  File I/O stays with the caller. -/
def processFileAST (root : PNode) (content : List Nat) : ProcessResult :=
  if ¬ magicMatch content then ⟨content, false, 0, 0⟩
  else
    let objects := findObjectsWithMagicCommentsAST content root
    let arrays := findArraysWithMagicCommentsAST content root
    let constrs := findConstructorsWithMagicCommentsAST content root
    if objects.length = 0 ∧ arrays.length = 0 ∧ constrs.length = 0 then
      ⟨content, false, 0, 0⟩
    else
      let items := processItems objects arrays constrs
      let itemsSorted := goSortSlice (fun x y => decide (x.startByte > y.startByte)) items
      let needSort := itemsSorted.countP fun it =>
        (sortItemAt objects arrays constrs content it).2
      let newContent :=
        if needSort > 0 then
          itemsSorted.foldl (fun nc it =>
            let r := sortItemAt objects arrays constrs content it
            if r.2 then
              nc.take it.startByte ++ r.1.getD [] ++ nc.drop it.endByte
            else nc) content
        else content
      ⟨newContent, needSort > 0,
        objects.length + arrays.length + constrs.length, needSort⟩

/-! ### Concrete syntax trees

Helpers for transcribing tree-sitter parses of the concrete inputs the
theorems below evaluate.  Every node receives a distinct `nid`. -/

def mkN (t : String) (sb eb sr er nid : Nat) (cs : List PNode) : PNode :=
  .mk (strB t) sb eb sr er nid none none none cs

def mkL (t : String) (sb eb sr er nid : Nat) : PNode := mkN t sb eb sr er nid []

def mkPairF (sb eb sr er nid : Nat) (kn vn : PNode) (cs : List PNode) : PNode :=
  .mk (strB "pair") sb eb sr er nid (some kn) (some vn) none cs

def mkPair (sb eb sr er nid : Nat) (kn vn : PNode) : PNode :=
  mkPairF sb eb sr er nid kn vn [kn, vn]

/-! ### Order lemmas for the comparators -/

theorem ltStr_irrefl (a : List Nat) : ltStr a a = false := by
  induction a with
  | nil => rfl
  | cons x xs ih => simp [ltStr, ih]

theorem ltStr_trans {a b c : List Nat} (h1 : ltStr a b = true)
    (h2 : ltStr b c = true) : ltStr a c = true := by
  induction a generalizing b c with
  | nil =>
    cases b with
    | nil => simp [ltStr] at h1
    | cons y ys =>
      cases c with
      | nil => simp [ltStr] at h2
      | cons z zs => rfl
  | cons x xs ih =>
    cases b with
    | nil => simp [ltStr] at h1
    | cons y ys =>
      cases c with
      | nil => simp [ltStr] at h2
      | cons z zs =>
        simp only [ltStr] at h1 h2 ⊢
        by_cases hxy : x < y
        · by_cases hyz : y < z
          · simp [show x < z by omega]
          · by_cases hzy : z < y
            · simp [hyz, hzy] at h2
            · have : y = z := by omega
              subst this
              simp [hxy]
        · by_cases hyx : y < x
          · simp [hxy, hyx] at h1
          · have hxyeq : x = y := by omega
            subst hxyeq
            simp [show ¬ x < x by omega] at h1
            by_cases hxz : x < z
            · simp [hxz]
            · by_cases hzx : z < x
              · simp [hxz, hzx] at h2
              · have : x = z := by omega
                subst this
                simp only [show ¬ x < x by omega, if_false] at h2
                simp only [show ¬ x < x by omega, if_false]
                exact ih h1 h2

theorem ltStr_connex {a b : List Nat} (h1 : ltStr a b = false)
    (h2 : ltStr b a = false) : a = b := by
  induction a generalizing b with
  | nil =>
    cases b with
    | nil => rfl
    | cons y ys => simp [ltStr] at h1
  | cons x xs ih =>
    cases b with
    | nil => simp [ltStr] at h2
    | cons y ys =>
      simp only [ltStr] at h1 h2
      by_cases hxy : x < y
      · simp [hxy] at h1
      · by_cases hyx : y < x
        · simp [hxy, hyx] at h2
        · have : x = y := by omega
          subst this
          simp only [show ¬ x < x by omega, if_false] at h1 h2
          rw [ih h1 h2]

/-- Negative transitivity of `ltStr` (totality of its complement). -/
theorem ltStr_negtrans {a b c : List Nat} (h1 : ltStr a b = false)
    (h2 : ltStr b c = false) : ltStr a c = false := by
  by_contra hac
  rw [Bool.not_eq_false] at hac
  by_cases hba : ltStr b a = true
  · exact absurd (ltStr_trans hba hac) (by simp [h2])
  · rw [Bool.not_eq_true] at hba
    have hab := ltStr_connex h1 hba
    subst hab
    rw [hac] at h2
    simp at h2

theorem compareKeys_irrefl (a : List Nat) : compareKeys a a = false := by
  unfold compareKeys
  cases hp : parseGoFloat a with
  | some q => simp [goNumLt]
  | none =>
    simp only []
    split
    · simp only [decide_eq_false_iff_not]
      rintro ⟨h1, h2⟩
      rw [h1] at h2
      exact absurd h2 (by decide)
    · exact ltStr_irrefl a

/-! ### Stability of `sort.Slice` on at most twelve elements

`sort.Slice` is documented as unstable, and the pdqsort main loop is;
but ranges of length at most 12 go straight to plain insertion sort,
whose only data move is an adjacent swap guarded by the comparator.
When the comparator never orders two members of the same equivalence
class, each class's subsequence (a `filter`) survives every such swap,
hence the whole sort. -/

theorem aswap_adj_filter [Inhabited α] (p : α → Bool) :
    ∀ (l : List α) (j : Nat),
    (p (aget l (j + 1)) = false ∨ p (aget l j) = false) →
    (aswap l (j + 1) j).filter p = l.filter p := by
  intro l
  induction l with
  | nil => intro j _; simp [aswap]
  | cons x xs ih =>
    intro j hp
    cases j with
    | zero =>
      cases xs with
      | nil => simp [aswap]
      | cons y ys =>
        have hs : aswap (x :: y :: ys) 1 0 = y :: x :: ys := by
          simp [aswap, aget]
        rw [hs]
        have hget1 : aget (x :: y :: ys) 1 = y := rfl
        have hget0 : aget (x :: y :: ys) 0 = x := rfl
        rw [hget1, hget0] at hp
        rcases hp with hpy | hpx
        · cases hx : p x <;> simp [List.filter_cons, hpy, hx]
        · cases hy : p y <;> simp [List.filter_cons, hpx, hy]
    | succ j =>
      have hstep : aswap (x :: xs) (j + 1 + 1) (j + 1) =
          x :: aswap xs (j + 1) j := by
        by_cases h : j + 1 < xs.length
        · have h2 : j < xs.length := by omega
          simp [aswap, aget, h, h2]
        · have h2 : ¬ (j + 1 + 1 < xs.length + 1) := by omega
          simp [aswap, h, h2]
      rw [hstep]
      have hp' : p (aget xs (j + 1)) = false ∨ p (aget xs j) = false := by
        simpa [aget] using hp
      cases hpx : p x <;> simp [List.filter_cons, hpx, ih j hp']

theorem bubbleLoop_filter [Inhabited α] (cmp : α → α → Bool) (p : α → Bool)
    (hcl : ∀ x y, cmp x y = true → (p x = false ∨ p y = false)) :
    ∀ (j : Nat) (l : List α) (a : Nat),
    (bubbleLoop cmp l a j).filter p = l.filter p := by
  intro j
  induction j with
  | zero => intro l a; rfl
  | succ j ih =>
    intro l a
    unfold bubbleLoop
    by_cases h : a < j + 1 ∧ aless cmp l (j + 1) j
    · rw [if_pos h, ih]
      exact aswap_adj_filter p l j (hcl _ _ h.2)
    · rw [if_neg h]

theorem insertionLoop_filter [Inhabited α] (cmp : α → α → Bool) (p : α → Bool)
    (hcl : ∀ x y, cmp x y = true → (p x = false ∨ p y = false)) (a b : Nat) :
    ∀ (fuel : Nat) (l : List α) (i : Nat),
    (insertionLoop cmp a b fuel l i).filter p = l.filter p := by
  intro fuel
  induction fuel with
  | zero => intro l i; rfl
  | succ fuel ih =>
    intro l i
    unfold insertionLoop
    by_cases h : i < b
    · rw [if_pos h, ih, bubbleLoop_filter cmp p hcl]
    · rw [if_neg h]

theorem insertionSortArr_filter [Inhabited α] (cmp : α → α → Bool) (p : α → Bool)
    (hcl : ∀ x y, cmp x y = true → (p x = false ∨ p y = false)) (l : List α)
    (a b : Nat) : (insertionSortArr cmp l a b).filter p = l.filter p :=
  insertionLoop_filter cmp p hcl a b b l (a + 1)

/-- Up to twelve elements, `sort.Slice` is exactly insertion sort. -/
theorem goSortSlice_small [Inhabited α] (cmp : α → α → Bool) (l : List α)
    (h : l.length ≤ 12) : goSortSlice cmp l = insertionSortArr cmp l 0 l.length := by
  unfold goSortSlice
  have hf : l.length + 16 = (l.length + 15) + 1 := by omega
  rw [hf]
  unfold pdqsortArr
  simp [h]

/-- Class stability of `sort.Slice` on at most twelve elements. -/
theorem goSortSlice_stable_filter [Inhabited α] (cmp : α → α → Bool) (p : α → Bool)
    (hcl : ∀ x y, cmp x y = true → (p x = false ∨ p y = false)) (l : List α)
    (h : l.length ≤ 12) : (goSortSlice cmp l).filter p = l.filter p := by
  rw [goSortSlice_small cmp l h]
  exact insertionSortArr_filter cmp p hcl l 0 l.length

/-- `objLess` never orders two properties with equal key and equal
deprecation flag. -/
theorem objLess_class (cfg : SortConfig) (k : List Nat) (d : Bool) :
    ∀ x y : AstProperty, objLess cfg x y = true →
    ((x.key == k && x.isDeprecated == d) = false ∨
     (y.key == k && y.isDeprecated == d) = false) := by
  intro x y h
  by_contra hc
  push_neg at hc
  obtain ⟨h1, h2⟩ := hc
  simp only [ne_eq, Bool.not_eq_false, Bool.and_eq_true, beq_iff_eq] at h1 h2
  have hk : x.key = y.key := by rw [h1.1, h2.1]
  have hd : x.isDeprecated = y.isDeprecated := by rw [h1.2, h2.2]
  unfold objLess at h
  rw [hk] at h
  by_cases hdep : cfg.deprecatedAtEnd
  · rw [if_pos hdep, if_neg (by simp [hd]), ltStr_irrefl] at h
    exact absurd h (by simp)
  · rw [if_neg hdep, ltStr_irrefl] at h
    exact absurd h (by simp)

/-- `arrLess` never orders two elements with equal sort key and equal
deprecation flag. -/
theorem arrLess_class (dep : Bool) (k : List Nat) (d : Bool) :
    ∀ x y : ArrayElement, arrLess dep x y = true →
    ((x.sortKey == k && x.isDeprecated == d) = false ∨
     (y.sortKey == k && y.isDeprecated == d) = false) := by
  intro x y h
  by_contra hc
  push_neg at hc
  obtain ⟨h1, h2⟩ := hc
  simp only [ne_eq, Bool.not_eq_false, Bool.and_eq_true, beq_iff_eq] at h1 h2
  have hk : x.sortKey = y.sortKey := by rw [h1.1, h2.1]
  have hd : x.isDeprecated = y.isDeprecated := by rw [h1.2, h2.2]
  unfold arrLess at h
  rw [hk] at h
  by_cases hdep : dep
  · rw [if_pos hdep, if_neg (by simp [hd]), ltStr_irrefl] at h
    exact absurd h (by simp)
  · rw [if_neg hdep, if_neg (by simp), compareKeys_irrefl] at h
    by_cases hpre : strHasPre y.sortKey sentinelB
    · rw [if_pos (by simp [hpre]), ltStr_irrefl] at h
      exact absurd h (by simp)
    · rw [if_neg (by simp [hpre])] at h
      exact absurd h (by simp)

/-- `paramLess` never orders two parameters with equal name and equal
deprecation flag. -/
theorem paramLess_class (dep : Bool) (k : List Nat) (d : Bool) :
    ∀ x y : ConstrParam, paramLess dep x y = true →
    ((x.name == k && x.isDeprecated == d) = false ∨
     (y.name == k && y.isDeprecated == d) = false) := by
  intro x y h
  by_contra hc
  push_neg at hc
  obtain ⟨h1, h2⟩ := hc
  simp only [ne_eq, Bool.not_eq_false, Bool.and_eq_true, beq_iff_eq] at h1 h2
  have hk : x.name = y.name := by rw [h1.1, h2.1]
  have hd : x.isDeprecated = y.isDeprecated := by rw [h1.2, h2.2]
  unfold paramLess at h
  rw [hk] at h
  by_cases hdep : dep
  · rw [if_pos hdep, if_neg (by simp [hd]), ltStr_irrefl] at h
    exact absurd h (by simp)
  · rw [if_neg hdep, ltStr_irrefl] at h
    exact absurd h (by simp)

/-! ### A marked object with the numeric string keys `"10"`, `"9"` (C3)

```ts
const o = {
  /** tree-sorter-ts: keep-sorted **/
  "10": 1,
  "9": 2,
};
```
Transcribed tree-sitter parse; byte offsets computed from the text. -/

def c3content : List Nat :=
  strB "const o = \x7b\n  /** tree-sorter-ts: keep-sorted **/\n  \"10\": 1,\n  \"9\": 2,\n\x7d;\n"

def c3key1 : PNode := mkL "string" 52 56 2 2 10

def c3val1 : PNode := mkL "number" 58 59 2 2 11

def c3pair1 : PNode := mkPair 52 59 2 2 12 c3key1 c3val1

def c3key2 : PNode := mkL "string" 63 66 3 3 13

def c3val2 : PNode := mkL "number" 68 69 3 3 14

def c3pair2 : PNode := mkPair 63 69 3 3 15 c3key2 c3val2

def c3obj : PNode := mkN "object" 10 72 0 4 2
  [mkL "\x7b" 10 11 0 0 3, mkL "comment" 14 49 1 1 4,
   c3pair1, mkL "," 59 60 2 2 5,
   c3pair2, mkL "," 69 70 3 3 6,
   mkL "\x7d" 71 72 4 4 7]

def c3root : PNode := mkN "program" 0 74 0 5 1 [c3obj]

def c3region : ObjRegion := (findObjectsWithMagicCommentsAST c3content c3root).getD 0 default

/-- **C3, counterexample.**  The claim says every region type orders
items by the type-aware comparison (numbers numerically).  The object
path does not: its keys `"10"` and `"9"` both parse as numbers, the
type-aware `compareKeys` orders `9` before `10`, yet `objLess` keeps
`"10"` before `"9"` (plain byte order) and the processor leaves the file
unchanged. -/
theorem c3_counterexample :
    (extractPropertiesAST c3region c3content).map (fun p => p.key) =
      [strB "10", strB "9"] ∧
    compareKeys (strB "9") (strB "10") = true ∧
    compareKeys (strB "10") (strB "9") = false ∧
    objLess c3region.sortConfig
      ((extractPropertiesAST c3region c3content).getD 0 default)
      ((extractPropertiesAST c3region c3content).getD 1 default) = true ∧
    (sortObjectAST c3region c3content).2 = false ∧
    (processFileAST c3root c3content).out = c3content ∧
    (processFileAST c3root c3content).changed = false := by decide

/-- **C3, amended.**  What the comparators actually do, partition by
partition: object properties and constructor parameters always compare
by plain Go byte order (`ltStr`); only array elements use the
type-aware `compareKeys`, and only on the default path (no
`deprecated-at-end`) when neither key carries the missing-key sentinel;
with `deprecated-at-end` arrays also fall back to plain byte order. -/
theorem c3_amended_comparators :
    (∀ (cfg : SortConfig) (x y : AstProperty), x.isDeprecated = y.isDeprecated →
      objLess cfg x y = ltStr x.key y.key) ∧
    (∀ (dep : Bool) (x y : ConstrParam), x.isDeprecated = y.isDeprecated →
      paramLess dep x y = ltStr x.name y.name) ∧
    (∀ (x y : ArrayElement),
      strHasPre x.sortKey sentinelB = false → strHasPre y.sortKey sentinelB = false →
      arrLess false x y = compareKeys x.sortKey y.sortKey) ∧
    (∀ (x y : ArrayElement), x.isDeprecated = y.isDeprecated →
      arrLess true x y = ltStr x.sortKey y.sortKey) := by
  refine ⟨?_, ?_, ?_, ?_⟩
  · intro cfg x y hd
    unfold objLess
    by_cases hdep : cfg.deprecatedAtEnd
    · rw [if_pos hdep, if_neg (by simp [hd])]
    · rw [if_neg hdep]
  · intro dep x y hd
    unfold paramLess
    by_cases hdep : dep
    · rw [if_pos hdep, if_neg (by simp [hd])]
    · rw [if_neg hdep]
  · intro x y hx hy
    unfold arrLess
    rw [if_neg (by simp), if_neg (by simp [hx, hy]), if_neg (by simp [hx])]
  · intro x y hd
    unfold arrLess
    rw [if_pos rfl, if_neg (by simp [hd])]

/-- Witness for `c3_amended_comparators` at the keys of the `c3`
object and two concrete array elements. -/
theorem c3_amended_comparators_witness :
    objLess c3region.sortConfig
        ((extractPropertiesAST c3region c3content).getD 0 default)
        ((extractPropertiesAST c3region c3content).getD 1 default) =
      ltStr ((extractPropertiesAST c3region c3content).getD 0 default).key
        ((extractPropertiesAST c3region c3content).getD 1 default).key ∧
    arrLess false { sortKey := strB "9" } { sortKey := strB "10" } =
      compareKeys (strB "9") (strB "10") ∧
    arrLess true { sortKey := strB "9" } { sortKey := strB "10" } =
      ltStr (strB "9") (strB "10") ∧
    paramLess false { name := strB "b" } { name := strB "a" } =
      ltStr (strB "b") (strB "a") :=
  ⟨c3_amended_comparators.1 c3region.sortConfig _ _ (by decide),
   c3_amended_comparators.2.2.1 _ _ (by decide) (by decide),
   c3_amended_comparators.2.2.2 _ _ rfl,
   c3_amended_comparators.2.1 false _ _ rfl⟩

/-! ### A marked object with thirteen properties and a duplicate key (C4)

```ts
const o = {
  /** tree-sorter-ts: keep-sorted **/
  m: 0,
  b: 1,
  ...
  m: 3,
  ...
  j: 12,
};
```
Thirteen properties push the range past the twelve-element insertion
sort cutoff into the unstable pdqsort main loop; the two `m` properties
are the tie. -/

def c4content : List Nat :=
  strB "const o = \x7b\n  /** tree-sorter-ts: keep-sorted **/\n  m: 0,\n  b: 1,\n  c: 2,\n  m: 3,\n  d: 4,\n  e: 5,\n  a: 6,\n  f: 7,\n  g: 8,\n  z: 9,\n  h: 10,\n  i: 11,\n  j: 12,\n\x7d;\n"

def c4k0 : PNode := mkL "property_identifier" 52 53 2 2 4

def c4v0 : PNode := mkL "number" 55 56 2 2 5

def c4p0 : PNode := mkPair 52 56 2 2 6 c4k0 c4v0

def c4k1 : PNode := mkL "property_identifier" 60 61 3 3 8

def c4v1 : PNode := mkL "number" 63 64 3 3 9

def c4p1 : PNode := mkPair 60 64 3 3 10 c4k1 c4v1

def c4k2 : PNode := mkL "property_identifier" 68 69 4 4 12

def c4v2 : PNode := mkL "number" 71 72 4 4 13

def c4p2 : PNode := mkPair 68 72 4 4 14 c4k2 c4v2

def c4k3 : PNode := mkL "property_identifier" 76 77 5 5 16

def c4v3 : PNode := mkL "number" 79 80 5 5 17

def c4p3 : PNode := mkPair 76 80 5 5 18 c4k3 c4v3

def c4k4 : PNode := mkL "property_identifier" 84 85 6 6 20

def c4v4 : PNode := mkL "number" 87 88 6 6 21

def c4p4 : PNode := mkPair 84 88 6 6 22 c4k4 c4v4

def c4k5 : PNode := mkL "property_identifier" 92 93 7 7 24

def c4v5 : PNode := mkL "number" 95 96 7 7 25

def c4p5 : PNode := mkPair 92 96 7 7 26 c4k5 c4v5

def c4k6 : PNode := mkL "property_identifier" 100 101 8 8 28

def c4v6 : PNode := mkL "number" 103 104 8 8 29

def c4p6 : PNode := mkPair 100 104 8 8 30 c4k6 c4v6

def c4k7 : PNode := mkL "property_identifier" 108 109 9 9 32

def c4v7 : PNode := mkL "number" 111 112 9 9 33

def c4p7 : PNode := mkPair 108 112 9 9 34 c4k7 c4v7

def c4k8 : PNode := mkL "property_identifier" 116 117 10 10 36

def c4v8 : PNode := mkL "number" 119 120 10 10 37

def c4p8 : PNode := mkPair 116 120 10 10 38 c4k8 c4v8

def c4k9 : PNode := mkL "property_identifier" 124 125 11 11 40

def c4v9 : PNode := mkL "number" 127 128 11 11 41

def c4p9 : PNode := mkPair 124 128 11 11 42 c4k9 c4v9

def c4k10 : PNode := mkL "property_identifier" 132 133 12 12 44

def c4v10 : PNode := mkL "number" 135 137 12 12 45

def c4p10 : PNode := mkPair 132 137 12 12 46 c4k10 c4v10

def c4k11 : PNode := mkL "property_identifier" 141 142 13 13 48

def c4v11 : PNode := mkL "number" 144 146 13 13 49

def c4p11 : PNode := mkPair 141 146 13 13 50 c4k11 c4v11

def c4k12 : PNode := mkL "property_identifier" 150 151 14 14 52

def c4v12 : PNode := mkL "number" 153 155 14 14 53

def c4p12 : PNode := mkPair 150 155 14 14 54 c4k12 c4v12

def c4obj : PNode := mkN "object" 10 158 0 15 1
  [mkL "\x7b" 10 11 0 0 2,
   mkL "comment" 14 49 1 1 3,
   c4p0, mkL "," 56 57 2 2 7,
   c4p1, mkL "," 64 65 3 3 11,
   c4p2, mkL "," 72 73 4 4 15,
   c4p3, mkL "," 80 81 5 5 19,
   c4p4, mkL "," 88 89 6 6 23,
   c4p5, mkL "," 96 97 7 7 27,
   c4p6, mkL "," 104 105 8 8 31,
   c4p7, mkL "," 112 113 9 9 35,
   c4p8, mkL "," 120 121 10 10 39,
   c4p9, mkL "," 128 129 11 11 43,
   c4p10, mkL "," 137 138 12 12 47,
   c4p11, mkL "," 146 147 13 13 51,
   c4p12, mkL "," 155 156 14 14 55,
   mkL "\x7d" 157 158 15 15 56]

def c4root : PNode := mkN "program" 0 160 0 16 0 [c4obj]

def c4region : ObjRegion := (findObjectsWithMagicCommentsAST c4content c4root).getD 0 default

/-- **C4, counterexample.**  Thirteen properties, two of them keyed
`m` (`m: 0` with node id 6 before `m: 3` with node id 18 in the
source).  `sort.Slice` runs the unstable pdqsort main loop and emits
the tied pair in the opposite order — node 18 now precedes node 6 —
so equal keys do not keep their original relative order. -/
theorem c4_counterexample :
    (extractPropertiesAST c4region c4content).map (fun p => (p.key, p.pairNode.nid)) =
      [(strB "m", 6), (strB "b", 10), (strB "c", 14), (strB "m", 18),
       (strB "d", 22), (strB "e", 26), (strB "a", 30), (strB "f", 34),
       (strB "g", 38), (strB "z", 42), (strB "h", 46), (strB "i", 50),
       (strB "j", 54)] ∧
    (goSortSlice (objLess c4region.sortConfig)
        (extractPropertiesAST c4region c4content)).map
        (fun p => (p.key, p.pairNode.nid)) =
      [(strB "a", 30), (strB "b", 10), (strB "c", 14), (strB "d", 22),
       (strB "e", 26), (strB "f", 34), (strB "g", 38), (strB "h", 46),
       (strB "i", 50), (strB "j", 54), (strB "m", 18), (strB "m", 6),
       (strB "z", 42)] ∧
    (sortObjectAST c4region c4content).2 = true := by decide

/-- **C4, amended.**  Stability does hold for regions of at most twelve
items, because `sort.Slice` then reduces to plain insertion sort and the
comparators never order two items of the same key/deprecation class: for
every class, the class's subsequence of the output equals its
subsequence of the input.  This covers object, array and constructor
regions alike. -/
theorem c4_amended_small_regions_stable :
    (∀ (cfg : SortConfig) (props : List AstProperty), props.length ≤ 12 →
      ∀ (k : List Nat) (d : Bool),
        (goSortSlice (objLess cfg) props).filter
            (fun x => x.key == k && x.isDeprecated == d) =
          props.filter (fun x => x.key == k && x.isDeprecated == d)) ∧
    (∀ (dep : Bool) (elems : List ArrayElement), elems.length ≤ 12 →
      ∀ (k : List Nat) (d : Bool),
        (goSortSlice (arrLess dep) elems).filter
            (fun x => x.sortKey == k && x.isDeprecated == d) =
          elems.filter (fun x => x.sortKey == k && x.isDeprecated == d)) ∧
    (∀ (dep : Bool) (params : List ConstrParam), params.length ≤ 12 →
      ∀ (k : List Nat) (d : Bool),
        (goSortSlice (paramLess dep) params).filter
            (fun x => x.name == k && x.isDeprecated == d) =
          params.filter (fun x => x.name == k && x.isDeprecated == d)) := by
  refine ⟨?_, ?_, ?_⟩
  · intro cfg props h k d
    exact goSortSlice_stable_filter (objLess cfg) _ (objLess_class cfg k d) props h
  · intro dep elems h k d
    exact goSortSlice_stable_filter (arrLess dep) _ (arrLess_class dep k d) elems h
  · intro dep params h k d
    exact goSortSlice_stable_filter (paramLess dep) _ (paramLess_class dep k d) params h

/-- Witness for `c4_amended_small_regions_stable`: the two-property
`c3` object (two items, under the cutoff) keeps each key class
unchanged. -/
theorem c4_amended_small_regions_stable_witness :
    (extractPropertiesAST c3region c3content).length ≤ 12 ∧
    (goSortSlice (objLess c3region.sortConfig)
        (extractPropertiesAST c3region c3content)).filter
        (fun x => x.key == strB "10" && x.isDeprecated == false) =
      (extractPropertiesAST c3region c3content).filter
        (fun x => x.key == strB "10" && x.isDeprecated == false) :=
  ⟨by decide,
   c4_amended_small_regions_stable.1 c3region.sortConfig
     (extractPropertiesAST c3region c3content) (by decide) (strB "10") false⟩

/-! ### A single-line marked object with ordered keys (C8)

```ts
const o = { /** tree-sorter-ts: keep-sorted **/ a: 1, b: 2 };
```
All properties share row 0 and are already in canonical order. -/

def c8content : List Nat :=
  strB "const o = \x7b /** tree-sorter-ts: keep-sorted **/ a: 1, b: 2 \x7d;\n"

def c8keyA : PNode := mkL "property_identifier" 48 49 0 0 10

def c8valA : PNode := mkL "number" 51 52 0 0 11

def c8pairA : PNode := mkPair 48 52 0 0 12 c8keyA c8valA

def c8keyB : PNode := mkL "property_identifier" 54 55 0 0 13

def c8valB : PNode := mkL "number" 57 58 0 0 14

def c8pairB : PNode := mkPair 54 58 0 0 15 c8keyB c8valB

def c8obj : PNode := mkN "object" 10 60 0 0 2
  [mkL "\x7b" 10 11 0 0 3, mkL "comment" 12 47 0 0 4,
   c8pairA, mkL "," 52 53 0 0 5,
   c8pairB,
   mkL "\x7d" 59 60 0 0 6]

def c8root : PNode := mkN "program" 0 62 0 1 1 [c8obj]

def c8region : ObjRegion := (findObjectsWithMagicCommentsAST c8content c8root).getD 0 default

/-! ### A single-line marked array with ordered elements (C8, amended)

```ts
const a = [ /** tree-sorter-ts: keep-sorted **/ 1, 2 ];
``` -/

def c8acontent : List Nat :=
  strB "const a = [ /** tree-sorter-ts: keep-sorted **/ 1, 2 ];\n"

def c8ae1 : PNode := mkL "number" 48 49 0 0 10

def c8ae2 : PNode := mkL "number" 51 52 0 0 11

def c8aarr : PNode := mkN "array" 10 54 0 0 2
  [mkL "[" 10 11 0 0 3, mkL "comment" 12 47 0 0 4,
   c8ae1, mkL "," 49 50 0 0 5,
   c8ae2,
   mkL "]" 53 54 0 0 6]

def c8aroot : PNode := mkN "program" 0 56 0 1 1 [c8aarr]

def c8aregion : ArrRegion := (findArraysWithMagicCommentsAST c8acontent c8aroot).getD 0 default

/-- **C8, counterexample.**  The claim extends the single-line
exemption to object regions, but `checkFormattingNeeded` (objects) has
no single-line case: the ordered one-line object above passes the
already-sorted check, is still flagged as needing formatting, and
`sortObjectAST` rewrites it. -/
theorem c8_counterexample :
    (extractPropertiesAST c8region c8content).map
        (fun p => (p.key, p.pairNode.sr, p.pairNode.er)) =
      [(strB "a", 0, 0), (strB "b", 0, 0)] ∧
    objCheckSorted c8region.sortConfig (extractPropertiesAST c8region c8content)
      (goSortSlice (objLess c8region.sortConfig)
        (extractPropertiesAST c8region c8content)) = true ∧
    checkFormattingNeeded c8region (extractPropertiesAST c8region c8content)
      c8content = true ∧
    (sortObjectAST c8region c8content).2 = true ∧
    (processFileAST c8root c8content).changed = true := by decide

/-- **C8, amended.**  The exemption is real for array regions only: a
non-empty element list whose first start row equals its last end row
makes `checkArrayFormattingNeeded` answer `false` outright, and an
already-sorted single-line array region is left untouched by
`sortArrayAST`. -/
theorem c8_amended_single_line_arrays (arr : ArrRegion) (content : List Nat)
    (hlen : 0 <
      ((extractArrayElementsAST arr content).map
        (assignSortKey arr.sortConfig.key content)).length)
    (hrow : (((extractArrayElementsAST arr content).map
        (assignSortKey arr.sortConfig.key content)).getD 0 default).node.sr =
      (((extractArrayElementsAST arr content).map
        (assignSortKey arr.sortConfig.key content)).getD
        (((extractArrayElementsAST arr content).map
          (assignSortKey arr.sortConfig.key content)).length - 1) default).node.er)
    (hsorted : arrCheckSorted
      ((extractArrayElementsAST arr content).map
        (assignSortKey arr.sortConfig.key content))
      (goSortSlice (arrLess arr.sortConfig.deprecatedAtEnd)
        ((extractArrayElementsAST arr content).map
          (assignSortKey arr.sortConfig.key content))) = true) :
    checkArrayFormattingNeeded arr
      ((extractArrayElementsAST arr content).map
        (assignSortKey arr.sortConfig.key content)) content = false ∧
    sortArrayAST arr content = (none, false) := by
  have hfmt : checkArrayFormattingNeeded arr
      ((extractArrayElementsAST arr content).map
        (assignSortKey arr.sortConfig.key content)) content = false := by
    unfold checkArrayFormattingNeeded
    rw [if_pos ⟨hlen, hrow⟩]
  refine ⟨hfmt, ?_⟩
  unfold sortArrayAST
  by_cases hle : (extractArrayElementsAST arr content).length ≤ 1
  · rw [if_pos hle]
  · rw [if_neg hle]
    simp only [hsorted, hfmt]
    simp

/-- Witness for `c8_amended_single_line_arrays`: the one-line sorted
array above is reported fine and left unchanged. -/
theorem c8_amended_single_line_arrays_witness :
    checkArrayFormattingNeeded c8aregion
      ((extractArrayElementsAST c8aregion c8acontent).map
        (assignSortKey c8aregion.sortConfig.key c8acontent)) c8acontent = false ∧
    sortArrayAST c8aregion c8acontent = (none, false) :=
  c8_amended_single_line_arrays c8aregion c8acontent (by decide) (by decide) (by decide)

/-- A prefix match at any offset is an occurrence: `strings.Contains`
holds. -/
theorem strContains_of_drop (s sub : List Nat) (i : Nat)
    (h : strHasPre (s.drop i) sub = true) : strContains s sub = true := by
  have hmem : ∃ j, j ∈ List.range (s.length + 1) ∧ strHasPre (s.drop j) sub = true := by
    by_cases hi : i ≤ s.length
    · exact ⟨i, List.mem_range.mpr (by omega), h⟩
    · have hd : s.drop i = ([] : List Nat) := List.drop_eq_nil_of_le (by omega)
      rw [hd] at h
      cases sub with
      | nil =>
        refine ⟨0, List.mem_range.mpr (by omega), ?_⟩
        cases s <;> rfl
      | cons b bs => simp [strHasPre] at h
  obtain ⟨j, hj, hpre⟩ := hmem
  cases hidx : strIndex s sub with
  | some v => simp [strContains, hidx]
  | none =>
    exfalso
    have hall := List.find?_eq_none.mp hidx
    exact absurd hpre (by simpa using hall j hj)

/-! ### A marked object whose marker is a line comment (C9)

```ts
const o = {
  // tree-sorter-ts: keep-sorted
  b: 1,
  a: 2,
};
```
plus the block-comment twin of the same object. -/

def c9content : List Nat :=
  strB "const o = \x7b\n  // tree-sorter-ts: keep-sorted\n  b: 1,\n  a: 2,\n\x7d;\n"

def c9keyB : PNode := mkL "property_identifier" 47 48 2 2 10

def c9valB : PNode := mkL "number" 50 51 2 2 11

def c9pairB : PNode := mkPair 47 51 2 2 12 c9keyB c9valB

def c9keyA : PNode := mkL "property_identifier" 55 56 3 3 13

def c9valA : PNode := mkL "number" 58 59 3 3 14

def c9pairA : PNode := mkPair 55 59 3 3 15 c9keyA c9valA

def c9obj : PNode := mkN "object" 10 62 0 4 2
  [mkL "\x7b" 10 11 0 0 3, mkL "comment" 14 44 1 1 4,
   c9pairB, mkL "," 51 52 2 2 5,
   c9pairA, mkL "," 59 60 3 3 6,
   mkL "\x7d" 61 62 4 4 7]

def c9root : PNode := mkN "program" 0 64 0 5 1 [c9obj]

def c9bcontent : List Nat :=
  strB "const o = \x7b\n  /** tree-sorter-ts: keep-sorted **/\n  b: 1,\n  a: 2,\n\x7d;\n"

def c9bkeyB : PNode := mkL "property_identifier" 52 53 2 2 10

def c9bvalB : PNode := mkL "number" 55 56 2 2 11

def c9bpairB : PNode := mkPair 52 56 2 2 12 c9bkeyB c9bvalB

def c9bkeyA : PNode := mkL "property_identifier" 60 61 3 3 13

def c9bvalA : PNode := mkL "number" 63 64 3 3 14

def c9bpairA : PNode := mkPair 60 64 3 3 15 c9bkeyA c9bvalA

def c9bobj : PNode := mkN "object" 10 67 0 4 2
  [mkL "\x7b" 10 11 0 0 3, mkL "comment" 14 49 1 1 4,
   c9bpairB, mkL "," 56 57 2 2 5,
   c9bpairA, mkL "," 64 65 3 3 6,
   mkL "\x7d" 66 67 4 4 7]

def c9broot : PNode := mkN "program" 0 69 0 5 1 [c9bobj]

/-- **C9, counterexample.**  The marker regex starts with a literal
`/\*`, so a line comment `// tree-sorter-ts: keep-sorted` — activation
keyword, `keep-sorted` and all — never matches: the object is not
located, and the out-of-order file passes through unchanged, while the
block-comment twin of the very same object is sorted. -/
theorem c9_counterexample :
    nodeText c9content (c9obj.child 1) = strB "// tree-sorter-ts: keep-sorted" ∧
    strContains (nodeText c9content (c9obj.child 1)) (strB "tree-sorter-ts:") = true ∧
    strContains (nodeText c9content (c9obj.child 1)) (strB "keep-sorted") = true ∧
    magicMatch (nodeText c9content (c9obj.child 1)) = false ∧
    (findObjectsWithMagicCommentsAST c9content c9root).length = 0 ∧
    (processFileAST c9root c9content).out = c9content ∧
    (processFileAST c9root c9content).changed = false ∧
    (processFileAST c9broot c9bcontent).changed = true ∧
    (goSortSlice (objLess ((findObjectsWithMagicCommentsAST c9bcontent c9broot).getD
        0 default).sortConfig)
      (extractPropertiesAST ((findObjectsWithMagicCommentsAST c9bcontent c9broot).getD
        0 default) c9bcontent)).map (fun p => p.key) = [strB "a", strB "b"] := by decide

/-- **C9, amended.**  Every comment the marker matcher accepts contains
the block-comment opener `/*` (and a closer `*/`): recognition is
limited to block comments, and line comments are structurally excluded.
-/
theorem c9_amended_marker_is_block_comment (s : List Nat)
    (h : magicMatch s = true) :
    strContains s (strB "/*") = true ∧ strContains s (strB "*/") = true := by
  unfold magicMatch at h
  simp only [List.any_eq_true, List.mem_range, Bool.and_eq_true,
    decide_eq_true_eq] at h
  obtain ⟨i, hi, hpre, j, hj, ⟨hij, hjt⟩, ⟨hk, hw⟩, m, hm, hkm, hms⟩ := h
  exact ⟨strContains_of_drop s (strB "/*") i hpre,
    strContains_of_drop s (strB "*/") m hms⟩

/-- Witness for `c9_amended_marker_is_block_comment`: the block-comment
marker of the `c3` file. -/
theorem c9_amended_marker_is_block_comment_witness :
    strContains (nodeText c3content (c3obj.child 1)) (strB "/*") = true ∧
    strContains (nodeText c3content (c3obj.child 1)) (strB "*/") = true :=
  c9_amended_marker_is_block_comment (nodeText c3content (c3obj.child 1)) (by decide)

/-! ### Idempotence: regions that pass both checks are left alone -/

theorem sortObjectAST_unchanged (obj : ObjRegion) (content : List Nat)
    (hs : objCheckSorted obj.sortConfig (extractPropertiesAST obj content)
      (goSortSlice (objLess obj.sortConfig) (extractPropertiesAST obj content)) = true)
    (hf : checkFormattingNeeded obj (extractPropertiesAST obj content) content = false) :
    sortObjectAST obj content = (none, false) := by
  unfold sortObjectAST
  by_cases hle : (extractPropertiesAST obj content).length ≤ 1
  · rw [if_pos hle]
  · rw [if_neg hle]
    simp only [hs, hf]
    simp

theorem sortArrayAST_unchanged (arr : ArrRegion) (content : List Nat)
    (hs : arrCheckSorted
      ((extractArrayElementsAST arr content).map (assignSortKey arr.sortConfig.key content))
      (goSortSlice (arrLess arr.sortConfig.deprecatedAtEnd)
        ((extractArrayElementsAST arr content).map
          (assignSortKey arr.sortConfig.key content))) = true)
    (hf : checkArrayFormattingNeeded arr
      ((extractArrayElementsAST arr content).map
        (assignSortKey arr.sortConfig.key content)) content = false) :
    sortArrayAST arr content = (none, false) := by
  unfold sortArrayAST
  by_cases hle : (extractArrayElementsAST arr content).length ≤ 1
  · rw [if_pos hle]
  · rw [if_neg hle]
    simp only [hs, hf]
    simp

theorem sortConstructorAST_unchanged (constr : ConstrRegion) (content : List Nat)
    (hs : constrCheckSorted constr.sortConfig (extractConstructorParamsAST constr content)
      (goSortSlice (paramLess constr.sortConfig.deprecatedAtEnd)
        (extractConstructorParamsAST constr content)) = true)
    (hf : checkConstructorFormattingNeeded constr
      (extractConstructorParamsAST constr content) content = false) :
    sortConstructorAST constr content = (none, false) := by
  unfold sortConstructorAST
  by_cases hle : (extractConstructorParamsAST constr content).length ≤ 1
  · rw [if_pos hle]
  · rw [if_neg hle]
    simp only [hs, hf]
    simp

/-- The default (out-of-range) region has no children, hence no items:
`sortObjectAST` leaves it alone. -/
theorem sortObjectAST_default (content : List Nat) :
    sortObjectAST default content = (none, false) := rfl

theorem sortArrayAST_default (content : List Nat) :
    sortArrayAST default content = (none, false) := rfl

theorem sortConstructorAST_default (content : List Nat) :
    sortConstructorAST default content = (none, false) := rfl

/-- `getD` returns a member or the fallback. -/
theorem getD_cases (l : List α) (n : Nat) (d : α) : l.getD n d ∈ l ∨ l.getD n d = d := by
  induction l generalizing n with
  | nil => right; cases n <;> rfl
  | cons x xs ih =>
    cases n with
    | zero =>
      left
      have he : (x :: xs).getD 0 d = x := rfl
      rw [he]
      exact List.mem_cons_self x xs
    | succ n =>
      have he : (x :: xs).getD (n + 1) d = xs.getD n d := rfl
      rcases ih n with h | h
      · left; rw [he]; exact List.mem_cons_of_mem x h
      · right; rw [he, h]

/-- **C2.**  A file all of whose discovered regions pass the
already-sorted check and the formatting check (canonical order and
canonical formatting) comes out byte-identical with `changed = false`.
-/
theorem c2_idempotent (root : PNode) (content : List Nat)
    (hobj : ∀ r ∈ findObjectsWithMagicCommentsAST content root,
      objCheckSorted r.sortConfig (extractPropertiesAST r content)
        (goSortSlice (objLess r.sortConfig) (extractPropertiesAST r content)) = true ∧
      checkFormattingNeeded r (extractPropertiesAST r content) content = false)
    (harr : ∀ r ∈ findArraysWithMagicCommentsAST content root,
      arrCheckSorted
        ((extractArrayElementsAST r content).map (assignSortKey r.sortConfig.key content))
        (goSortSlice (arrLess r.sortConfig.deprecatedAtEnd)
          ((extractArrayElementsAST r content).map
            (assignSortKey r.sortConfig.key content))) = true ∧
      checkArrayFormattingNeeded r
        ((extractArrayElementsAST r content).map
          (assignSortKey r.sortConfig.key content)) content = false)
    (hconstr : ∀ r ∈ findConstructorsWithMagicCommentsAST content root,
      constrCheckSorted r.sortConfig (extractConstructorParamsAST r content)
        (goSortSlice (paramLess r.sortConfig.deprecatedAtEnd)
          (extractConstructorParamsAST r content)) = true ∧
      checkConstructorFormattingNeeded r
        (extractConstructorParamsAST r content) content = false) :
    (processFileAST root content).out = content ∧
    (processFileAST root content).changed = false := by
  have hall : ∀ it : SortableItem,
      (sortItemAt (findObjectsWithMagicCommentsAST content root)
        (findArraysWithMagicCommentsAST content root)
        (findConstructorsWithMagicCommentsAST content root) content it).2 = false := by
    intro it
    unfold sortItemAt
    by_cases ha : it.isArray
    · rw [if_pos (by simp [ha])]
      rcases getD_cases (findArraysWithMagicCommentsAST content root)
          it.arrIndex default with h | h
      · rw [sortArrayAST_unchanged _ _ (harr _ h).1 (harr _ h).2]
      · rw [h, sortArrayAST_default]
    · rw [if_neg (by simp [ha])]
      by_cases hc : it.isConstructor
      · rw [if_pos (by simp [hc])]
        rcases getD_cases (findConstructorsWithMagicCommentsAST content root)
            it.constrIndex default with h | h
        · rw [sortConstructorAST_unchanged _ _ (hconstr _ h).1 (hconstr _ h).2]
        · rw [h, sortConstructorAST_default]
      · rw [if_neg (by simp [hc])]
        rcases getD_cases (findObjectsWithMagicCommentsAST content root)
            it.objIndex default with h | h
        · rw [sortObjectAST_unchanged _ _ (hobj _ h).1 (hobj _ h).2]
        · rw [h, sortObjectAST_default]
  unfold processFileAST
  by_cases hm : magicMatch content
  · rw [if_neg (by simpa using hm)]
    by_cases hz : (findObjectsWithMagicCommentsAST content root).length = 0 ∧
        (findArraysWithMagicCommentsAST content root).length = 0 ∧
        (findConstructorsWithMagicCommentsAST content root).length = 0
    · rw [if_pos hz]
      exact ⟨rfl, rfl⟩
    · rw [if_neg hz]
      have hcount : (goSortSlice (fun x y => decide (x.startByte > y.startByte))
          (processItems (findObjectsWithMagicCommentsAST content root)
            (findArraysWithMagicCommentsAST content root)
            (findConstructorsWithMagicCommentsAST content root))).countP
          (fun it => (sortItemAt (findObjectsWithMagicCommentsAST content root)
            (findArraysWithMagicCommentsAST content root)
            (findConstructorsWithMagicCommentsAST content root) content it).2) = 0 :=
        List.countP_eq_zero.mpr (fun it _ => by simp [hall it])
      simp only [hcount]
      simp
  · rw [if_pos (by simpa using hm)]
    exact ⟨rfl, rfl⟩

/-- Witness for `c2_idempotent`: the already-canonical `c3` file. -/
theorem c2_idempotent_witness :
    (processFileAST c3root c3content).out = c3content ∧
    (processFileAST c3root c3content).changed = false :=
  c2_idempotent c3root c3content (by decide) (by decide) (by decide)

/-- A prefix is its own prefix on any extension. -/
theorem strHasPre_append (p t : List Nat) : strHasPre (p ++ t) p = true := by
  induction p with
  | cons b bs ih => simp [strHasPre, ih]
  | nil => cases t <;> rfl

/-! ### A `deprecated-at-end` array with a failed key and an emoji key (C5)

```ts
const a = [
  /** tree-sorter-ts: keep-sorted key="k" deprecated-at-end **/
  { k: "😀" },
  { x: 1 },
];
```
The first element resolves `k` to the four-byte emoji; the second lacks
`k` and falls back to the sentinel-prefixed raw text. -/

def c5content : List Nat :=
  strB "const a = [\n  /** tree-sorter-ts: keep-sorted key=\"k\" deprecated-at-end **/\n  \x7b k: \"😀\" \x7d,\n  \x7b x: 1 \x7d,\n];\n"

def c5k1 : PNode := mkL "property_identifier" 80 81 2 2 10

def c5v1 : PNode := mkL "string" 83 89 2 2 11

def c5pair1 : PNode := mkPair 80 89 2 2 12 c5k1 c5v1

def c5obj1 : PNode := mkN "object" 78 91 2 2 13
  [mkL "\x7b" 78 79 2 2 14, c5pair1, mkL "\x7d" 90 91 2 2 15]

def c5k2 : PNode := mkL "property_identifier" 97 98 3 3 16

def c5v2 : PNode := mkL "number" 100 101 3 3 17

def c5pair2 : PNode := mkPair 97 101 3 3 18 c5k2 c5v2

def c5obj2 : PNode := mkN "object" 95 103 3 3 19
  [mkL "\x7b" 95 96 3 3 20, c5pair2, mkL "\x7d" 102 103 3 3 21]

def c5arr : PNode := mkN "array" 10 106 0 4 2
  [mkL "[" 10 11 0 0 3, mkL "comment" 14 75 1 1 4,
   c5obj1, mkL "," 91 92 2 2 5,
   c5obj2, mkL "," 103 104 3 3 6,
   mkL "]" 105 106 4 4 7]

def c5root : PNode := mkN "program" 0 108 0 5 1 [c5arr]

def c5region : ArrRegion := (findArraysWithMagicCommentsAST c5content c5root).getD 0 default

def c5keyed : List ArrayElement :=
  (extractArrayElementsAST c5region c5content).map
    (assignSortKey c5region.sortConfig.key c5content)

/-- **C5, counterexample.**  With `deprecated-at-end`, the comparator is
plain byte order on the sort keys, and the sentinel `U+FFFF`
(`EF BF BF`) does not dominate an emoji key (`F0 9F 98 80`): after
sorting, the element whose key extraction failed sits **before** the
element with a resolvable key, in the same (non-deprecated) partition.
-/
theorem c5_counterexample :
    c5region.sortConfig.deprecatedAtEnd = true ∧
    c5region.sortConfig.key = strB "k" ∧
    (c5keyed.map fun e => (strHasPre e.sortKey sentinelB, e.node.nid)) =
      [(false, 13), (true, 19)] ∧
    ((goSortSlice (arrLess true) c5keyed).map fun e =>
        (strHasPre e.sortKey sentinelB, e.node.nid)) =
      [(true, 19), (false, 13)] ∧
    (sortArrayAST c5region c5content).2 = true := by decide

/-- **C5, amended.**  Failed extractions do get the sentinel-prefixed
raw text as their key, and on the default path (no `deprecated-at-end`)
the claim's placement holds pairwise: a resolvable key always orders
before a sentinel key, never the other way round, and two sentinel keys
compare by their raw sentinel-prefixed text.  The counterexample shows
the placement breaks under `deprecated-at-end`. -/
theorem c5_amended_sentinel_partition :
    (∀ (cfgKey content : List Nat) (e : ArrayElement),
      extractElementKey e cfgKey content = none →
      (assignSortKey cfgKey content e).sortKey =
        sentinelB ++ nodeText content e.node ∧
      strHasPre (assignSortKey cfgKey content e).sortKey sentinelB = true) ∧
    (∀ x y : ArrayElement, strHasPre x.sortKey sentinelB = false →
      strHasPre y.sortKey sentinelB = true →
      arrLess false x y = true ∧ arrLess false y x = false) ∧
    (∀ x y : ArrayElement, strHasPre x.sortKey sentinelB = true →
      strHasPre y.sortKey sentinelB = true →
      arrLess false x y = ltStr x.sortKey y.sortKey) := by
  refine ⟨?_, ?_, ?_⟩
  · intro cfgKey content e he
    unfold assignSortKey
    rw [he]
    exact ⟨rfl, strHasPre_append sentinelB (nodeText content e.node)⟩
  · intro x y hx hy
    constructor
    · unfold arrLess
      rw [if_neg (by simp), if_pos (by simp [hx, hy])]
      simp [hx]
    · unfold arrLess
      rw [if_neg (by simp), if_pos (by simp [hx, hy])]
      simp [hy]
  · intro x y hx hy
    unfold arrLess
    rw [if_neg (by simp), if_neg (by simp [hx, hy]), if_pos (by simp [hx, hy])]

/-- Witness for `c5_amended_sentinel_partition` on the `c5` elements:
the failed element gets the sentinel plus its own text, and without
`deprecated-at-end` it would order after the resolvable one. -/
theorem c5_amended_sentinel_partition_witness :
    ((assignSortKey (strB "k") c5content (c5keyed.getD 1 default)).sortKey =
      sentinelB ++ nodeText c5content (c5keyed.getD 1 default).node ∧
     strHasPre (assignSortKey (strB "k") c5content
       (c5keyed.getD 1 default)).sortKey sentinelB = true) ∧
    (arrLess false (c5keyed.getD 0 default) (c5keyed.getD 1 default) = true ∧
     arrLess false (c5keyed.getD 1 default) (c5keyed.getD 0 default) = false) :=
  ⟨c5_amended_sentinel_partition.1 (strB "k") c5content (c5keyed.getD 1 default)
     (by decide),
   c5_amended_sentinel_partition.2.1 (c5keyed.getD 0 default)
     (c5keyed.getD 1 default) (by decide) (by decide)⟩

/-! ### The modular discovery path (internal/parser/magic_comments.go)

`FindObjectsWithMagicComments` walks the tree; at an `object` node it
scans the comment children, parses and validates the config, and on a
validation error `continue`s to the next comment — the object is
dropped and the function's own `error` result is always `nil`. -/

/-- The comment scan with the validation gate (`continue` on error,
`break` on the first valid match). -/
def scanMagicValid (content : List Nat) (n : PNode) : Option Nat :=
  (List.range n.children.length).find? fun i =>
    (n.child i).typ = strB "comment" &&
    magicMatch (nodeText content (n.child i)) &&
    !(validateConfig (configParseSortConfig (nodeText content (n.child i)))).2

/-- The modular path's discovered object region (`objects.ObjectSorter`
holds node, comment and index; the config is re-parsed later). -/
structure ObjSorterM where
  object : PNode
  magicComment : PNode
  magicIndex : Nat
deriving Inhabited

/-- `parser.FindObjectsWithMagicComments` (the array version is
word-for-word identical with `array` for `object`). -/
def findObjectsWithMagicComments (content : List Nat) (n : PNode) : List ObjSorterM :=
  findRegionsF (fun nd =>
    if nd.typ = strB "object" then
      match scanMagicValid content nd with
      | some i => [⟨nd, nd.child i, i⟩]
      | none => []
    else []) n.tsize n

/-- Every collected region comes from some node's hit list. -/
theorem findRegionsF_mem (hit : PNode → List α) :
    ∀ (fuel : Nat) (n : PNode) (r : α), r ∈ findRegionsF hit fuel n →
    ∃ m, r ∈ hit m := by
  intro fuel
  induction fuel with
  | zero => intro n r h; simp [findRegionsF] at h
  | succ fuel ih =>
    intro n r h
    simp only [findRegionsF, List.mem_append] at h
    rcases h with h | h
    · exact ⟨n, h⟩
    · rw [List.mem_flatten] at h
      obtain ⟨s, hs, hrs⟩ := h
      rw [List.mem_map] at hs
      obtain ⟨c, _, rfl⟩ := hs
      exact ih c r hrs

/-- `getD` at an in-range index is a member. -/
theorem getD_mem (l : List α) (n : Nat) (d : α) (h : n < l.length) :
    l.getD n d ∈ l := by
  induction l generalizing n with
  | nil => simp at h
  | cons x xs ih =>
    cases n with
    | zero => exact List.mem_cons_self x xs
    | succ n =>
      have he : (x :: xs).getD (n + 1) d = xs.getD n d := rfl
      rw [he]
      exact List.mem_cons_of_mem x (ih n (by simpa using h))

/-! ### A marked object with both `key=` and `sort-by-comment` (C7)

```ts
const o = {
  /** tree-sorter-ts: keep-sorted key="name" sort-by-comment **/
  b: 1,
  a: 2,
};
``` -/

def c7content : List Nat :=
  strB "const o = \x7b\n  /** tree-sorter-ts: keep-sorted key=\"name\" sort-by-comment **/\n  b: 1,\n  a: 2,\n\x7d;\n"

def c7keyB : PNode := mkL "property_identifier" 79 80 2 2 10

def c7valB : PNode := mkL "number" 82 83 2 2 11

def c7pairB : PNode := mkPair 79 83 2 2 12 c7keyB c7valB

def c7keyA : PNode := mkL "property_identifier" 87 88 3 3 13

def c7valA : PNode := mkL "number" 90 91 3 3 14

def c7pairA : PNode := mkPair 87 91 3 3 15 c7keyA c7valA

def c7obj : PNode := mkN "object" 10 94 0 4 2
  [mkL "\x7b" 10 11 0 0 3, mkL "comment" 14 76 1 1 4,
   c7pairB, mkL "," 83 84 2 2 5,
   c7pairA, mkL "," 91 92 3 3 6,
   mkL "\x7d" 93 94 4 4 7]

def c7root : PNode := mkN "program" 0 96 0 5 1 [c7obj]

/-- **C7, counterexample.**  `Validate` does flag the conflict
(`hasError`, an error), but nothing of the rest holds: the modular
discovery silently drops the region (no region, and the Go function's
error result is always `nil`), while the live AST path — the one the
application runs — does not know `sort-by-comment` at all, keeps the
region with `key="name"`, and rewrites its bytes (`changed = true`
instead of leaving the region unchanged with a reported error). -/
theorem c7_counterexample :
    (validateConfig (configParseSortConfig (nodeText c7content (c7obj.child 1)))).2
      = true ∧
    (validateConfig (configParseSortConfig
      (nodeText c7content (c7obj.child 1)))).1.hasError = true ∧
    (findObjectsWithMagicComments c7content c7root).length = 0 ∧
    (findObjectsWithMagicCommentsAST c7content c7root).length = 1 ∧
    ((findObjectsWithMagicCommentsAST c7content c7root).getD 0 default).sortConfig =
      { key := strB "name" } ∧
    (processFileAST c7root c7content).changed = true ∧
    (processFileAST c7root c7content).out ≠ c7content := by decide

/-- **C7, amended.**  What actually happens to a `key` +
`sort-by-comment` marker: `Validate` errors and sets `hasError`; the
modular discovery keeps only regions whose config validates, so the
conflicted region is silently dropped with no error for the caller; and
the live option parser simply ignores the `sort-by-comment` word, so
the live path processes the region as if only `key=` were given. -/
theorem c7_amended_conflict_silently_dropped :
    (∀ c : SortConfigM, c.key ≠ [] → c.sortByComment = true →
      (validateConfig c).2 = true ∧ (validateConfig c).1.hasError = true) ∧
    (∀ (content : List Nat) (root : PNode) (r : ObjSorterM),
      r ∈ findObjectsWithMagicComments content root →
      (validateConfig (configParseSortConfig
        (nodeText content r.magicComment))).2 = false) ∧
    (∀ cfg : SortConfig, applyOpt cfg (strB "sort-by-comment") = cfg) := by
  refine ⟨?_, ?_, ?_⟩
  · intro c hk hs
    unfold validateConfig
    rw [if_pos ⟨hk, hs⟩]
    exact ⟨rfl, rfl⟩
  · intro content root r hr
    obtain ⟨m, hm⟩ := findRegionsF_mem _ _ _ _ hr
    by_cases ht : m.typ = strB "object"
    · rw [if_pos ht] at hm
      cases hs : scanMagicValid content m with
      | none => rw [hs] at hm; simp at hm
      | some i =>
        rw [hs] at hm
        simp only [List.mem_singleton] at hm
        subst hm
        have hp := List.find?_some hs
        simp only [Bool.and_eq_true, Bool.not_eq_true', decide_eq_true_eq] at hp
        exact hp.2
    · rw [if_neg ht] at hm
      simp at hm
  · intro cfg
    rfl

/-- Witness for `c7_amended_conflict_silently_dropped`: the conflicted
`c7` config errors, and the valid `c3` object survives discovery with a
validating config. -/
theorem c7_amended_conflict_silently_dropped_witness :
    ((validateConfig (configParseSortConfig
        (nodeText c7content (c7obj.child 1)))).2 = true ∧
     (validateConfig (configParseSortConfig
        (nodeText c7content (c7obj.child 1)))).1.hasError = true) ∧
    (validateConfig (configParseSortConfig (nodeText c3content
      ((findObjectsWithMagicComments c3content c3root).getD 0
        default).magicComment))).2 = false :=
  ⟨c7_amended_conflict_silently_dropped.1
     (configParseSortConfig (nodeText c7content (c7obj.child 1)))
     (by decide) (by decide),
   c7_amended_conflict_silently_dropped.2.1 c3content c3root _
     (getD_mem _ 0 default (by decide))⟩

/-! ### The parallel driver (internal/app, `processFilesParallel`)

Workers pull files from a channel and run `processor.ProcessFileAST`
on each; the per-file result depends on nothing but that file's parse
tree and bytes (the embedding's `processFileAST` is a function of
them).  The collector folds the results in arrival order into sums,
counts and an or-flag.  A run is modelled by the chunking of the file
list across workers (any worker count) and by the arrival order of the
results (any interleaving). -/

structure RunStats where
  filesNeedSort : Nat
  totalObjects : Nat
  objectsNeedSort : Nat
  needsSorting : Bool
deriving Repr, DecidableEq

/-- The stats fold of `processFilesParallel`'s collection loop. -/
def collectStats (results : List ProcessResult) : RunStats :=
  { filesNeedSort := results.countP (fun r => r.changed),
    totalObjects := (results.map (fun r => r.objectsFound)).sum,
    objectsNeedSort := (results.map (fun r => r.objectsNeedSort)).sum,
    needsSorting := results.any (fun r => r.changed) }

theorem perm_any_eq {l1 l2 : List α} (h : l1.Perm l2) (p : α → Bool) :
    l1.any p = l2.any p := by
  rw [Bool.eq_iff_iff]
  simp only [List.any_eq_true]
  constructor
  · rintro ⟨x, hx, hp⟩; exact ⟨x, h.mem_iff.mp hx, hp⟩
  · rintro ⟨x, hx, hp⟩; exact ⟨x, h.mem_iff.mpr hx, hp⟩

theorem map_flatten_eq (g : α → β) : ∀ (L : List (List α)),
    (L.map (fun c => c.map g)).flatten = L.flatten.map g := by
  intro L
  induction L with
  | nil => rfl
  | cons c cs ih =>
    simp only [List.map_cons, List.flatten_cons, List.map_append, ih]

theorem collectStats_perm {r1 r2 : List ProcessResult} (h : r1.Perm r2) :
    collectStats r1 = collectStats r2 := by
  unfold collectStats
  rw [h.countP_eq, (h.map _).sum_eq, (h.map _).sum_eq, perm_any_eq h]

/-- **C10.**  Determinism of the parallel run: split the file list into
any chunks (one per worker, any worker count), process every file with
the per-file transform, and let the results arrive in any order — the
collected outcome equals that of a sequential run over the original
list.  The per-file output bytes and `changed` flag are
`processFileAST` of that file's tree and bytes alone, independent of
the chunking. -/
theorem c10_parallel_deterministic
    (files : List (PNode × List Nat))
    (chunks : List (List (PNode × List Nat)))
    (hchunks : chunks.flatten.Perm files)
    (arrival : List ProcessResult)
    (harrival : arrival.Perm ((chunks.map (fun c =>
      c.map (fun f => processFileAST f.1 f.2))).flatten)) :
    collectStats arrival =
      collectStats (files.map (fun f => processFileAST f.1 f.2)) := by
  have h1 : ((chunks.map (fun c => c.map (fun f => processFileAST f.1 f.2))).flatten) =
      chunks.flatten.map (fun f => processFileAST f.1 f.2) :=
    map_flatten_eq _ chunks
  rw [h1] at harrival
  exact collectStats_perm (harrival.trans (hchunks.map _))

/-- Witness for `c10_parallel_deterministic`: two files split across two
workers in swapped order, results arriving worker-2-first. -/
theorem c10_parallel_deterministic_witness :
    collectStats [processFileAST c3root c3content,
      processFileAST c9broot c9bcontent] =
      collectStats ([((c9broot : PNode), c9bcontent),
        ((c3root : PNode), c3content)].map (fun f => processFileAST f.1 f.2)) :=
  c10_parallel_deterministic
    [((c9broot : PNode), c9bcontent), ((c3root : PNode), c3content)]
    [[((c3root : PNode), c3content)], [((c9broot : PNode), c9bcontent)]]
    (List.Perm.swap _ _ _)
    [processFileAST c3root c3content, processFileAST c9broot c9bcontent]
    (List.Perm.refl _)

/-! ### What the already-sorted checks compare (C6) -/

theorem map_getD_eq (f : α → β) (d : α) (l : List α) (i : Nat) :
    f (l.getD i d) = (l.map f).getD i (f d) := by
  induction l generalizing i with
  | nil => cases i <;> rfl
  | cons x xs ih => cases i with
    | zero => rfl
    | succ n => exact ih n

theorem list_eq_of_getD_eq {l1 l2 : List β} (d : β) (hlen : l1.length = l2.length)
    (h : ∀ i, i < l1.length → l1.getD i d = l2.getD i d) : l1 = l2 := by
  induction l1 generalizing l2 with
  | nil => cases l2 with
    | nil => rfl
    | cons y ys => simp at hlen
  | cons x xs ih =>
    cases l2 with
    | nil => simp at hlen
    | cons y ys =>
      have h0 : x = y := h 0 (by simp)
      rw [h0, ih (by simpa using hlen)
        (fun i hi => h (i + 1) (by simpa using Nat.succ_lt_succ hi))]

/-- Two nodes that differ only in identity, and item records carrying
them under the same key. -/
def c6n1 : PNode := mkL "pair" 0 4 0 0 101

def c6n2 : PNode := mkL "pair" 6 10 1 1 102

def c6props : List AstProperty :=
  [{ key := strB "m", pairNode := c6n1 }, { key := strB "m", pairNode := c6n2 }]

def c6propsSwapped : List AstProperty :=
  [{ key := strB "m", pairNode := c6n2 }, { key := strB "m", pairNode := c6n1 }]

def c6elems : List ArrayElement :=
  [{ sortKey := strB "m", node := c6n1 }, { sortKey := strB "m", node := c6n2 }]

def c6elemsSwapped : List ArrayElement :=
  [{ sortKey := strB "m", node := c6n2 }, { sortKey := strB "m", node := c6n1 }]

/-- **C6, counterexample.**  The object check accepts a "sorted"
sequence in which the two distinct nodes (ids 101 and 102) have swapped
places, because it compares only keys (and, when enabled, deprecation
flags) — not node identity.  The array check on the same situation
answers `false`: only arrays compare by reference. -/
theorem c6_counterexample :
    (c6props.map fun p => p.pairNode.nid) ≠
      (c6propsSwapped.map fun p => p.pairNode.nid) ∧
    objCheckSorted {} c6props c6propsSwapped = true ∧
    objCheckSorted { deprecatedAtEnd := true } c6props c6propsSwapped = true ∧
    arrCheckSorted c6elems c6elemsSwapped = false := by decide

/-- **C6, amended.**  The array check is exactly element-wise node
identity (`nid` sequences equal); the object check is exactly key
equality, plus deprecation-flag equality when `deprecated-at-end` is
set — merely key equality, with no reference comparison. -/
theorem c6_amended_check_semantics :
    (∀ (elements sorted : List ArrayElement), elements.length = sorted.length →
      (arrCheckSorted elements sorted = true ↔
        elements.map (fun e => e.node.nid) = sorted.map (fun e => e.node.nid))) ∧
    (∀ (cfg : SortConfig) (props sorted : List AstProperty),
      props.length = sorted.length →
      (objCheckSorted cfg props sorted = true ↔
        props.map (fun p => p.key) = sorted.map (fun p => p.key) ∧
        (cfg.deprecatedAtEnd = true →
          props.map (fun p => p.isDeprecated) =
            sorted.map (fun p => p.isDeprecated)))) := by
  constructor
  · intro elements sorted hlen
    unfold arrCheckSorted
    rw [List.all_eq_true]
    constructor
    · intro h
      apply list_eq_of_getD_eq ((default : ArrayElement).node.nid)
      · simp [hlen]
      · intro i hi
        rw [List.length_map] at hi
        have hb := h i (List.mem_range.mpr hi)
        rw [beq_iff_eq] at hb
        rw [← map_getD_eq (fun e => e.node.nid) default elements i,
          ← map_getD_eq (fun e => e.node.nid) default sorted i]
        exact hb
    · intro hmap i hi
      rw [beq_iff_eq,
        map_getD_eq (fun e => e.node.nid) default elements i,
        map_getD_eq (fun e => e.node.nid) default sorted i, hmap]
  · intro cfg props sorted hlen
    unfold objCheckSorted
    rw [List.all_eq_true]
    by_cases hdep : cfg.deprecatedAtEnd
    · constructor
      · intro h
        have hkey : ∀ i, i < props.length →
            (props.getD i default).key = (sorted.getD i default).key := by
          intro i hi
          have hb := h i (List.mem_range.mpr hi)
          rw [Bool.and_eq_true, beq_iff_eq] at hb
          exact hb.1
        have hflag : ∀ i, i < props.length →
            (props.getD i default).isDeprecated =
              (sorted.getD i default).isDeprecated := by
          intro i hi
          have hb := h i (List.mem_range.mpr hi)
          rw [Bool.and_eq_true] at hb
          have hb2 := hb.2
          rw [hdep] at hb2
          simp only [Bool.not_true, Bool.false_or, beq_iff_eq] at hb2
          exact hb2
        refine ⟨?_, fun _ => ?_⟩
        · apply list_eq_of_getD_eq ((default : AstProperty).key)
          · simp [hlen]
          · intro i hi
            rw [List.length_map] at hi
            rw [← map_getD_eq (fun p => p.key) default props i,
              ← map_getD_eq (fun p => p.key) default sorted i]
            exact hkey i hi
        · apply list_eq_of_getD_eq ((default : AstProperty).isDeprecated)
          · simp [hlen]
          · intro i hi
            rw [List.length_map] at hi
            rw [← map_getD_eq (fun p => p.isDeprecated) default props i,
              ← map_getD_eq (fun p => p.isDeprecated) default sorted i]
            exact hflag i hi
      · rintro ⟨hkey, hflag⟩ i hi
        have hflag' := hflag hdep
        rw [Bool.and_eq_true, beq_iff_eq]
        constructor
        · rw [map_getD_eq (fun p => p.key) default props i,
            map_getD_eq (fun p => p.key) default sorted i, hkey]
        · rw [hdep]
          simp only [Bool.not_true, Bool.false_or, beq_iff_eq]
          rw [map_getD_eq (fun p => p.isDeprecated) default props i,
            map_getD_eq (fun p => p.isDeprecated) default sorted i, hflag']
    · rw [Bool.not_eq_true] at hdep
      constructor
      · intro h
        refine ⟨?_, fun hc => absurd hc (by simp [hdep])⟩
        apply list_eq_of_getD_eq ((default : AstProperty).key)
        · simp [hlen]
        · intro i hi
          rw [List.length_map] at hi
          have hb := h i (List.mem_range.mpr hi)
          rw [Bool.and_eq_true, beq_iff_eq] at hb
          rw [← map_getD_eq (fun p => p.key) default props i,
            ← map_getD_eq (fun p => p.key) default sorted i]
          exact hb.1
      · rintro ⟨hkey, _⟩ i hi
        rw [Bool.and_eq_true, beq_iff_eq]
        refine ⟨?_, by rw [hdep]; simp⟩
        rw [map_getD_eq (fun p => p.key) default props i,
          map_getD_eq (fun p => p.key) default sorted i, hkey]

/-- Witness for `c6_amended_check_semantics` on the `c5` array region's
keyed elements against their freshly sorted order, and the `c6`
property lists. -/
theorem c6_amended_check_semantics_witness :
    (arrCheckSorted c5keyed (goSortSlice (arrLess true) c5keyed) = true ↔
      c5keyed.map (fun e => e.node.nid) =
        (goSortSlice (arrLess true) c5keyed).map (fun e => e.node.nid)) ∧
    (objCheckSorted {} c6props c6propsSwapped = true ↔
      c6props.map (fun p => p.key) = c6propsSwapped.map (fun p => p.key) ∧
      (({} : SortConfig).deprecatedAtEnd = true →
        c6props.map (fun p => p.isDeprecated) =
          c6propsSwapped.map (fun p => p.isDeprecated))) :=
  ⟨c6_amended_check_semantics.1 c5keyed (goSortSlice (arrLess true) c5keyed)
     (by decide),
   c6_amended_check_semantics.2 {} c6props c6propsSwapped (by decide)⟩

/-! ### The frame of the splice pass (C1)

`ProcessFileAST` writes every changed region's replacement into the
mutated buffer at the region's **original** offsets.  For regions whose
ranges are disjoint this reproduces every byte outside the ranges; the
nested case corrupts bytes outside all regions (the counterexample
below).  `rebuildSeg` is the gap-preserving reassembly the frame claim
describes: alternating original gaps and replacements. -/

/-- One edit: start byte, end byte, replacement bytes. -/
def splice (nc : List Nat) (e : Nat × Nat × List Nat) : List Nat :=
  nc.take e.1 ++ e.2.2 ++ nc.drop e.2.1

/-- Ascending edits with the cursor at `pos`: the untouched gap, the
replacement, then the rest from the edit's end. -/
def rebuildSeg (content : List Nat) : List (Nat × Nat × List Nat) → Nat → List Nat
  | [], pos => content.drop pos
  | (sb, eb, r) :: rest, pos => gslice content pos sb ++ r ++ rebuildSeg content rest eb

/-- In-bounds, ascending, pairwise-disjoint edits, cursor at `pos`. -/
def editsOK (content : List Nat) : Nat → List (Nat × Nat × List Nat) → Bool
  | _, [] => true
  | pos, (sb, eb, _) :: rest =>
    decide (pos ≤ sb) && decide (sb ≤ eb) && decide (eb ≤ content.length) &&
      editsOK content eb rest

theorem editsOK_zero {content : List Nat} {pos : Nat}
    {A : List (Nat × Nat × List Nat)} (h : editsOK content pos A = true) :
    editsOK content 0 A = true := by
  cases A with
  | nil => rfl
  | cons e rest =>
    obtain ⟨sb, eb, r⟩ := e
    simp only [editsOK, Bool.and_eq_true, decide_eq_true_eq] at h ⊢
    exact ⟨⟨⟨Nat.zero_le _, h.1.1.2⟩, h.1.2⟩, h.2⟩

theorem rebuildSeg_take_q {content : List Nat} {p : Nat}
    {A : List (Nat × Nat × List Nat)} (h : editsOK content p A = true)
    {q : Nat} (hq : q ≤ p) (hqlen : q ≤ content.length) :
    (rebuildSeg content A 0).take q = content.take q := by
  cases A with
  | nil =>
    simp [rebuildSeg]
  | cons e rest =>
    obtain ⟨sb, eb, r⟩ := e
    simp only [editsOK, Bool.and_eq_true, decide_eq_true_eq] at h
    have hsb : q ≤ sb := le_trans hq h.1.1.1
    simp only [rebuildSeg, gslice, List.drop_zero]
    have hlen1 : q ≤ (List.take sb content).length := by
      rw [List.length_take]; exact le_min hsb hqlen
    have hlen2 : q ≤ (List.take sb content ++ r).length := by
      rw [List.length_append]; exact le_trans hlen1 (Nat.le_add_right _ _)
    rw [List.take_append_of_le_length hlen2,
      List.take_append_of_le_length hlen1,
      List.take_take, min_eq_left hsb]

theorem rebuildSeg_drop_q {content : List Nat} {p : Nat}
    {A : List (Nat × Nat × List Nat)} (h : editsOK content p A = true)
    {q : Nat} (hq : q ≤ p) (hqlen : q ≤ content.length) :
    (rebuildSeg content A 0).drop q = rebuildSeg content A q := by
  cases A with
  | nil =>
    simp [rebuildSeg]
  | cons e rest =>
    obtain ⟨sb, eb, r⟩ := e
    simp only [editsOK, Bool.and_eq_true, decide_eq_true_eq] at h
    have hsb : q ≤ sb := le_trans hq h.1.1.1
    simp only [rebuildSeg, gslice, List.drop_zero]
    have hlen1 : q ≤ (List.take sb content).length := by
      rw [List.length_take]; exact le_min hsb hqlen
    have hlen2 : q ≤ (List.take sb content ++ r).length := by
      rw [List.length_append]; exact le_trans hlen1 (Nat.le_add_right _ _)
    rw [List.drop_append_of_le_length hlen2, List.drop_append_of_le_length hlen1]

/-- The descending splice fold over ascending-listed disjoint edits is
the gap-preserving reassembly. -/
theorem splice_foldr (content : List Nat) :
    ∀ (A : List (Nat × Nat × List Nat)), editsOK content 0 A = true →
    A.foldr (fun e nc => splice nc e) content = rebuildSeg content A 0 := by
  intro A
  induction A with
  | nil => intro _; rfl
  | cons e rest ih =>
    intro h
    obtain ⟨sb, eb, r⟩ := e
    simp only [editsOK, Bool.and_eq_true, decide_eq_true_eq] at h
    obtain ⟨⟨⟨_, hsbeb⟩, heblen⟩, hrest⟩ := h
    have hB : rest.foldr (fun e nc => splice nc e) content =
        rebuildSeg content rest 0 := ih (editsOK_zero hrest)
    have ht : (rebuildSeg content rest 0).take sb = content.take sb :=
      rebuildSeg_take_q hrest hsbeb (le_trans hsbeb heblen)
    have hd : (rebuildSeg content rest 0).drop eb = rebuildSeg content rest eb :=
      rebuildSeg_drop_q hrest (le_refl eb) heblen
    rw [List.foldr_cons]
    show splice (rest.foldr (fun e nc => splice nc e) content) (sb, eb, r) =
      rebuildSeg content ((sb, eb, r) :: rest) 0
    rw [hB]
    show (rebuildSeg content rest 0).take sb ++ r ++
        (rebuildSeg content rest 0).drop eb =
      rebuildSeg content ((sb, eb, r) :: rest) 0
    rw [ht, hd]
    simp [rebuildSeg, gslice]

theorem goSortSlice_nil [Inhabited α] (cmp : α → α → Bool) :
    goSortSlice cmp ([] : List α) = [] := rfl

/-- A guarded fold is the plain fold over the filtered, mapped list. -/
theorem foldl_if_filter_map (f : β → γ → β) (p : α → Bool) (g : α → γ) :
    ∀ (l : List α) (c : β),
    l.foldl (fun nc it => if p it then f nc (g it) else nc) c =
      ((l.filter p).map g).foldl f c := by
  intro l
  induction l with
  | nil => intro c; rfl
  | cons x xs ih =>
    intro c
    by_cases hp : p x
    · simp only [List.foldl_cons, List.filter_cons, hp, if_true, if_pos,
        List.map_cons]
      exact ih (f c (g x))
    · have hpf : p x = false := by simpa using hp
      simp only [List.foldl_cons, List.filter_cons, hpf, Bool.false_eq_true,
        if_false, List.map_cons]
      exact ih c

/-- The changed edits of one processing run, in the splice pass's
(descending-start) order: region range plus the replacement computed
from the original content. -/
def changedEditsDesc (root : PNode) (content : List Nat) :
    List (Nat × Nat × List Nat) :=
  let objects := findObjectsWithMagicCommentsAST content root
  let arrays := findArraysWithMagicCommentsAST content root
  let constrs := findConstructorsWithMagicCommentsAST content root
  ((goSortSlice (fun x y => decide (x.startByte > y.startByte))
      (processItems objects arrays constrs)).filter
    (fun it => (sortItemAt objects arrays constrs content it).2)).map
    (fun it => (it.startByte, it.endByte,
      (sortItemAt objects arrays constrs content it).1.getD []))

/-! ### A file with nested marked objects (C1)

```ts
const x = {
  /** tree-sorter-ts: keep-sorted **/
  b: {
    /** tree-sorter-ts: keep-sorted **/
    z: 1,

    a: 2,
  },
  a: 3,
};
const tail = 9;
```
The inner object's region `[55,121)` lies inside the outer's
`[10,132)`; the trailing `;` at byte 132 and everything after it lie
outside both. -/

def c1content : List Nat :=
  strB "const x = \x7b\n  /** tree-sorter-ts: keep-sorted **/\n  b: \x7b\n    /** tree-sorter-ts: keep-sorted **/\n    z: 1,\n\n    a: 2,\n  \x7d,\n  a: 3,\n\x7d;\nconst tail = 9;\n"

def c1kz : PNode := mkL "property_identifier" 101 102 4 4 20

def c1vz : PNode := mkL "number" 104 105 4 4 21

def c1pz : PNode := mkPair 101 105 4 4 22 c1kz c1vz

def c1ka2 : PNode := mkL "property_identifier" 112 113 6 6 23

def c1va2 : PNode := mkL "number" 115 116 6 6 24

def c1pa2 : PNode := mkPair 112 116 6 6 25 c1ka2 c1va2

def c1inner : PNode := mkN "object" 55 121 2 7 10
  [mkL "\x7b" 55 56 2 2 11, mkL "comment" 61 96 3 3 12,
   c1pz, mkL "," 105 106 4 4 13,
   c1pa2, mkL "," 116 117 6 6 14,
   mkL "\x7d" 120 121 7 7 15]

def c1kb : PNode := mkL "property_identifier" 52 53 2 2 30

def c1pb : PNode := mkPairF 52 121 2 7 31 c1kb c1inner [c1kb, c1inner]

def c1ka3 : PNode := mkL "property_identifier" 125 126 8 8 32

def c1va3 : PNode := mkL "number" 128 129 8 8 33

def c1pa3 : PNode := mkPair 125 129 8 8 34 c1ka3 c1va3

def c1outer : PNode := mkN "object" 10 132 0 9 2
  [mkL "\x7b" 10 11 0 0 3, mkL "comment" 14 49 1 1 4,
   c1pb, mkL "," 121 122 7 7 5,
   c1pa3, mkL "," 129 130 8 8 6,
   mkL "\x7d" 131 132 9 9 7]

def c1root : PNode := mkN "program" 0 150 0 10 1 [c1outer]

set_option maxRecDepth 4096 in
/-- **C1, counterexample.**  Both regions change; the splice pass
writes the outer replacement at the original offsets into a buffer the
inner splice has already shortened by one byte, and the `;` at byte 132
— outside every region range — disappears: the input has two `;`
bytes, the output only one, and the input's tail after the regions is
not the output's tail. -/
theorem c1_counterexample :
    ((findObjectsWithMagicCommentsAST c1content c1root).map
      (fun r => (r.object.sb, r.object.eb))) = [(10, 132), (55, 121)] ∧
    (findArraysWithMagicCommentsAST c1content c1root).length = 0 ∧
    (findConstructorsWithMagicCommentsAST c1content c1root).length = 0 ∧
    c1content.drop 132 = strB ";\nconst tail = 9;\n" ∧
    c1content.countP (· == 59) = 2 ∧
    (processFileAST c1root c1content).changed = true ∧
    (processFileAST c1root c1content).out.countP (· == 59) = 1 ∧
    (processFileAST c1root c1content).out.drop
        ((processFileAST c1root c1content).out.length - 18) ≠
      strB ";\nconst tail = 9;\n" := by decide

/-- **C1, amended.**  The frame property holds exactly when the changed
edits — in ascending order — are in-bounds, ordered and pairwise
disjoint (`editsOK`): then the output is the gap-preserving reassembly
`rebuildSeg`, reproducing every byte outside the replaced ranges.  The
counterexample shows the hypothesis is necessary: nested regions
violate it and corrupt bytes outside all regions. -/
theorem c1_amended_frame (root : PNode) (content : List Nat)
    (hm : magicMatch content = true)
    (hok : editsOK content 0 (changedEditsDesc root content).reverse = true) :
    (processFileAST root content).out =
      rebuildSeg content ((changedEditsDesc root content).reverse) 0 := by
  unfold processFileAST
  rw [if_neg (by simp [hm])]
  by_cases hz : (findObjectsWithMagicCommentsAST content root).length = 0 ∧
      (findArraysWithMagicCommentsAST content root).length = 0 ∧
      (findConstructorsWithMagicCommentsAST content root).length = 0
  · rw [if_pos hz]
    have ho := List.length_eq_zero.mp hz.1
    have ha := List.length_eq_zero.mp hz.2.1
    have hc := List.length_eq_zero.mp hz.2.2
    have he : changedEditsDesc root content = [] := by
      unfold changedEditsDesc
      rw [ho, ha, hc]
      rfl
    rw [he]
    simp [rebuildSeg]
  · rw [if_neg hz]
    have hE : changedEditsDesc root content =
        ((goSortSlice (fun x y => decide (x.startByte > y.startByte))
          (processItems (findObjectsWithMagicCommentsAST content root)
            (findArraysWithMagicCommentsAST content root)
            (findConstructorsWithMagicCommentsAST content root))).filter
          (fun it => (sortItemAt (findObjectsWithMagicCommentsAST content root)
            (findArraysWithMagicCommentsAST content root)
            (findConstructorsWithMagicCommentsAST content root) content it).2)).map
          (fun it => (it.startByte, it.endByte,
            (sortItemAt (findObjectsWithMagicCommentsAST content root)
              (findArraysWithMagicCommentsAST content root)
              (findConstructorsWithMagicCommentsAST content root) content
              it).1.getD [])) := rfl
    simp only []
    by_cases hns : ((goSortSlice (fun x y => decide (x.startByte > y.startByte))
        (processItems (findObjectsWithMagicCommentsAST content root)
          (findArraysWithMagicCommentsAST content root)
          (findConstructorsWithMagicCommentsAST content root))).countP
        (fun it => (sortItemAt (findObjectsWithMagicCommentsAST content root)
          (findArraysWithMagicCommentsAST content root)
          (findConstructorsWithMagicCommentsAST content root) content it).2)) > 0
    · rw [if_pos hns]
      have hbody : (fun (nc : List Nat) (it : SortableItem) =>
          let r := sortItemAt (findObjectsWithMagicCommentsAST content root)
            (findArraysWithMagicCommentsAST content root)
            (findConstructorsWithMagicCommentsAST content root) content it
          if r.2 then nc.take it.startByte ++ r.1.getD [] ++ nc.drop it.endByte
          else nc) =
          (fun nc it =>
            if (sortItemAt (findObjectsWithMagicCommentsAST content root)
              (findArraysWithMagicCommentsAST content root)
              (findConstructorsWithMagicCommentsAST content root) content it).2 then
              splice nc (it.startByte, it.endByte,
                (sortItemAt (findObjectsWithMagicCommentsAST content root)
                  (findArraysWithMagicCommentsAST content root)
                  (findConstructorsWithMagicCommentsAST content root) content
                  it).1.getD [])
            else nc) := by
        funext nc it
        by_cases h : (sortItemAt (findObjectsWithMagicCommentsAST content root)
            (findArraysWithMagicCommentsAST content root)
            (findConstructorsWithMagicCommentsAST content root) content it).2
        · simp only [h, if_true, splice]
        · have hf : (sortItemAt (findObjectsWithMagicCommentsAST content root)
              (findArraysWithMagicCommentsAST content root)
              (findConstructorsWithMagicCommentsAST content root) content
              it).2 = false := by simpa using h
          simp only [hf, Bool.false_eq_true, if_false]
      rw [hbody, foldl_if_filter_map splice _ _, ← hE]
      have h1 : (changedEditsDesc root content).foldl splice content =
          ((changedEditsDesc root content).reverse).foldr
            (fun e nc => splice nc e) content := by
        rw [List.foldr_reverse]
      rw [h1]
      exact splice_foldr content _ hok
    · rw [if_neg hns]
      have hfil : ((goSortSlice (fun x y => decide (x.startByte > y.startByte))
          (processItems (findObjectsWithMagicCommentsAST content root)
            (findArraysWithMagicCommentsAST content root)
            (findConstructorsWithMagicCommentsAST content root))).filter
          (fun it => (sortItemAt (findObjectsWithMagicCommentsAST content root)
            (findArraysWithMagicCommentsAST content root)
            (findConstructorsWithMagicCommentsAST content root) content it).2)) = [] := by
        rw [← List.length_eq_zero, ← List.countP_eq_length_filter]
        omega
      have he : changedEditsDesc root content = [] := by
        rw [hE, hfil]
        rfl
      rw [he]
      simp [rebuildSeg]

set_option maxRecDepth 4096 in
/-- Witness for `c1_amended_frame`: the single-region `c9b` file has
trivially disjoint edits, and its output is the gap-preserving
reassembly. -/
theorem c1_amended_frame_witness :
    magicMatch c9bcontent = true ∧
    editsOK c9bcontent 0 (changedEditsDesc c9broot c9bcontent).reverse = true ∧
    (processFileAST c9broot c9bcontent).out =
      rebuildSeg c9bcontent ((changedEditsDesc c9broot c9bcontent).reverse) 0 :=
  ⟨by decide, by decide,
   c1_amended_frame c9broot c9bcontent (by decide) (by decide)⟩
